import Mathlib

/-!
Verification of the chromatin cell-cycle simulation (snsinfu/3d-genome-cycle).

This file gives a shallow embedding, in Lean 4, of the parts of the C++
source that the verified claims are about, and proves (or refutes) each
claim against that embedding.

Conventions used throughout:
* Machine floating-point scalars (`md::scalar`, i.e. C++ `double`) are
  modelled as exact rationals `ℚ` where the code only does field
  arithmetic and comparisons, and as real numbers `ℝ` where the code
  takes square roots or exponentials.  One claim (about NaN production)
  is about IEEE-754 special values; for it a dedicated model `FP` with
  `NaN`/`±∞` is used.
* `md::index` / `std::uint32_t` are modelled as `ℕ`, with explicit
  `< 2 ^ 32` bounds where 32-bit truncation or packing matters.
* External collaborators that are not part of the repository (the `md`
  library's generic potentials and neighbor searcher, `std::mt19937_64`,
  the trajectory store) are modelled from the specification; each such
  definition carries a doc comment starting with `Modelled from the
  spec:`.  Everything else is translated from the repository's sources.
-/

/-! # Contact map (src/simulation/stage_interphase/contact_map.{hpp,cpp})

The contact map counts proximity events between indexed points.  Points are
3-D; only field arithmetic on coordinates is involved, so coordinates are
modelled as `ℚ`.
-/

/-- A 3-D point with rational coordinates (model of `md::point` where only
field arithmetic is performed on it). -/
structure QPoint where
  x : ℚ
  y : ℚ
  z : ℚ
deriving DecidableEq, Repr

/-- Squared Euclidean distance between two points. -/
def QPoint.sqdist (a b : QPoint) : ℚ :=
  (a.x - b.x) ^ 2 + (a.y - b.y) ^ 2 + (a.z - b.z) ^ 2

/-- `contact_pair` from contact_map.hpp: an (i, j) index pair. -/
structure contact_pair where
  i : ℕ
  j : ℕ
deriving DecidableEq, Repr

/-- The state of `contact_map::_contacts` (a `std::unordered_map` from
`contact_pair` to `std::uint32_t`).  It is modelled as an association list
with (invariantly) distinct keys; the list order stands for the hash map's
unspecified iteration order, and the theorems below show the observable
output is independent of it. -/
abbrev ContactState := List (contact_pair × ℕ)

/-- The effect of `contacts[cpair] += 1` on the association list: bump an
existing entry, or default-construct the counter at 0 and add 1.  The
counter is a `std::uint32_t`, so the addition wraps modulo 2^32 (the
fresh-entry case is `(0 + 1) % 2^32`). -/
def contact_map.bump (m : ContactState) (p : contact_pair) : ContactState :=
  match m with
  | [] => [(p, (0 + 1) % 2 ^ 32)]
  | (q, c) :: rest =>
    if q = p then (q, (c + 1) % 2 ^ 32) :: rest
    else (q, c) :: contact_map.bump rest p

/-- The count recorded for a pair (0 when the pair was never recorded). -/
def contact_map.count (m : ContactState) (p : contact_pair) : ℕ :=
  match m with
  | [] => 0
  | (q, c) :: rest => if q = p then c else contact_map.count rest p

/-- Modelled from the spec: `md::neighbor_searcher` (external `md` library)
"calls the visitor once per found close pair (i, j), i<j, exactly once",
where a close pair is one "whose separation is ≤ cutoff".  The enumeration
order is unspecified; this model fixes one order, and the theorems that
need order-independence prove it. -/
def closePairs (cutoff : ℚ) (points : List QPoint) : List (ℕ × ℕ) :=
  (List.range points.length).flatMap fun j =>
    (List.range j).filterMap fun i =>
      if QPoint.sqdist (points.getD i ⟨0, 0, 0⟩) (points.getD j ⟨0, 0, 0⟩) ≤ cutoff ^ 2 then
        some (i, j)
      else
        none

/-- The narrowing `std::uint32_t(...)` applied to each visited index pair
(truncation mod 2^32). -/
def contact_map.castPair (pr : ℕ × ℕ) : contact_pair :=
  ⟨pr.1 % 2 ^ 32, pr.2 % 2 ^ 32⟩

/-- The output iterator of `contact_map::update`: each visited pair is
narrowed to `std::uint32_t` and its counter is incremented by 1. -/
def contact_map.record (m : ContactState) (pr : ℕ × ℕ) : ContactState :=
  contact_map.bump m (contact_map.castPair pr)

/-- `contact_map::update`: run a neighbor search with the current contact
distance over `points` and increment the per-pair counter of every found
pair by 1. -/
def contact_map.update (dist : ℚ) (points : List QPoint) (m : ContactState) :
    ContactState :=
  (closePairs dist points).foldl contact_map.record m

/-- `contact_map::clear`: discard all counts. -/
def contact_map.clear : ContactState := []

/-- The 64-bit sort key from `contact_map::accumulate`:
`(std::uint64_t(i) << 32) | j`. -/
def encode_ij (i j : ℕ) : ℕ :=
  (i <<< 32) ||| j

/-- Sort key of an output triple. -/
def tripleKey (t : ℕ × ℕ × ℕ) : ℕ :=
  encode_ij t.1 t.2.1

/-- `contact_map::accumulate`: turn the recorded (pair ↦ count) entries into
(i, j, count) triples and sort them by `encode_ij` ascending.  `std::sort`
is modelled by insertion sort on the non-strict key order; for the states
the map actually reaches the keys are distinct, so any comparison sort
produces this same list. -/
def contact_map.accumulate (m : ContactState) : List (ℕ × ℕ × ℕ) :=
  List.insertionSort (fun a b => tripleKey a ≤ tripleKey b)
    (m.map fun e => (e.1.i, e.1.j, e.2))

instance : IsTotal (ℕ × ℕ × ℕ) fun a b => tripleKey a ≤ tripleKey b :=
  ⟨fun a b => Nat.le_total (tripleKey a) (tripleKey b)⟩

instance : IsTrans (ℕ × ℕ × ℕ) fun a b => tripleKey a ≤ tripleKey b :=
  ⟨fun _ _ _ h h' => Nat.le_trans h h'⟩

instance : IsAntisymm (ℕ × ℕ × ℕ) fun a b => tripleKey a < tripleKey b :=
  ⟨fun _ _ h h' => ((Nat.lt_asymm h) h').elim⟩


/-! # Position quantization (src/simulation/common/simulation_store.cpp)

`quantize` rounds the `frexp` mantissa of a coordinate to a fixed number of
fraction bits by a power-of-two rescaling.  `std::frexp`, `std::ldexp` and
`std::nearbyint` are exact on IEEE doubles in the range this code uses
them, so the function is modelled in exact rational arithmetic.
-/

/-- `std::nearbyint` in the default rounding mode (round to nearest, ties
to even), on `ℚ`. -/
def nearbyintQ (x : ℚ) : ℤ :=
  if Int.fract x = 1 / 2 then
    (if 2 ∣ ⌊x⌋ then ⌊x⌋ else ⌊x⌋ + 1)
  else
    round x

/-- `std::frexp` on `ℚ`: decompose `x = mant * 2 ^ exp` with
`1/2 ≤ |mant| < 1` (and `(0, 0)` for `x = 0`, as the C standard fixes). -/
def frexpQ (x : ℚ) : ℚ × ℤ :=
  if x = 0 then (0, 0)
  else
    let e := Int.log 2 |x| + 1
    (x / 2 ^ e, e)

/-- `quantize` from simulation_store.cpp: round the mantissa to `bits`
fraction bits.  (`std::ldexp` is the exact scaling by a power of two.) -/
def quantize (value : ℚ) (bits : ℤ) : ℚ :=
  let me := frexpQ value
  let scaled_mant : ℤ := nearbyintQ (me.1 * 2 ^ bits)
  (scaled_mant : ℚ) * 2 ^ (me.2 - bits)

/-! # IEEE-754 special values (for the NaN claim about part_008's
`force_flux_potential`)

`FP` is an idealized IEEE double: a NaN, signed infinities, or an exact
rational.  Rounding, overflow and signed zero are not modelled; at the
input the claim is about (`r = 0` with small integer parameters) every
intermediate result is exactly representable, zero tests and sign tests
are exact, and no overflow occurs, so the special-value propagation below
agrees with IEEE-754 arithmetic on doubles.
-/

inductive FP where
  | nan : FP
  | inf : Bool → FP
  | num : ℚ → FP
deriving DecidableEq, Repr

def FP.add : FP → FP → FP
  | nan, _ => nan
  | _, nan => nan
  | inf s, inf t => if s = t then inf s else nan
  | inf s, num _ => inf s
  | num _, inf t => inf t
  | num a, num b => num (a + b)

def FP.mul : FP → FP → FP
  | nan, _ => nan
  | _, nan => nan
  | inf s, inf t => inf (Bool.xor s t)
  | inf s, num q => if q = 0 then nan else inf (Bool.xor s (decide (q < 0)))
  | num q, inf t => if q = 0 then nan else inf (Bool.xor t (decide (q < 0)))
  | num a, num b => num (a * b)

def FP.div : FP → FP → FP
  | nan, _ => nan
  | _, nan => nan
  | inf _, inf _ => nan
  | inf s, num q => inf (Bool.xor s (decide (q < 0)))
  | num _, inf _ => num 0
  | num a, num b =>
    if b = 0 then (if a = 0 then nan else inf (decide (a < 0))) else num (a / b)

instance : Add FP := ⟨FP.add⟩

instance : Mul FP := ⟨FP.mul⟩

instance : Div FP := ⟨FP.div⟩

def FP.isNaN : FP → Bool
  | nan => true
  | _ => false

def FP.finPart : FP → ℚ
  | num q => q
  | _ => 0

/-- The C math functions used by the potential: `sqrt` and `atan2` produce
irrational values, so their finite-argument payloads are abstract, subject
only to the IEEE requirement that `sqrt` is exact at 0.  All claims below
hold for every such payload. -/
structure MathFns where
  sqrt : ℚ → ℚ
  atan2 : ℚ → ℚ → ℚ
  sqrt_zero : sqrt 0 = 0

/-- IEEE `sqrt` on the model: NaN for negative or NaN input. -/
def FP.sqrtF (f : MathFns) : FP → FP
  | nan => nan
  | inf s => if s then nan else inf false
  | num q => if q < 0 then nan else num (f.sqrt q)

/-- IEEE `atan2` on the model: it returns a (finite, non-NaN) value for
every non-NaN pair of arguments; infinite arguments do not occur in the
claims below, so their payload is the abstract finite-part one. -/
def FP.atan2F (f : MathFns) : FP → FP → FP
  | nan, _ => nan
  | _, nan => nan
  | y, x => num (f.atan2 y.finPart x.finPart)

/-- An `md::vector` of IEEE doubles. -/
structure FPVec where
  x : FP
  y : FP
  z : FP
deriving DecidableEq, Repr

/-- `md::vector::squared_norm`: x*x + y*y + z*z. -/
def FPVec.squared_norm (r : FPVec) : FP :=
  r.x * r.x + r.y * r.y + r.z * r.z

/-- `force_flux_potential` from src/unnamed/part_008:
`u(r) = b f arctan(b / r)` with `f = constant_force`,
`b = reactive_distance`. -/
structure force_flux_potential where
  constant_force : FP
  reactive_distance : FP

/-- `force_flux_potential::evaluate_energy`:
`constant_force * reactive_distance * std::atan2(reactive_distance, r.norm())`
where `md::vector::norm()` is `sqrt(squared_norm())`. -/
def force_flux_potential.evaluate_energy
    (f : MathFns) (pot : force_flux_potential) (r : FPVec) : FP :=
  let r1 := FP.sqrtF f r.squared_norm
  pot.constant_force * pot.reactive_distance * FP.atan2F f pot.reactive_distance r1

/-- `force_flux_potential::evaluate_force`:
`constant_force * b2 / (b2 * r1 + r3) * r`. -/
def force_flux_potential.evaluate_force
    (f : MathFns) (pot : force_flux_potential) (r : FPVec) : FPVec :=
  let r2 := r.squared_norm
  let r1 := FP.sqrtF f r2
  let r3 := r1 * r2
  let b2 := pot.reactive_distance * pot.reactive_distance
  let coef := pot.constant_force * b2 / (b2 * r1 + r3)
  ⟨coef * r.x, coef * r.y, coef * r.z⟩

/-! # Real 3-D vectors (for the potential and geometry claims)

Where the code takes Euclidean norms, normalizes vectors, or evaluates
exponentials, coordinates are modelled as real numbers.
-/

/-- `md::vector` / `md::point` over `ℝ`. -/
structure Vec where
  x : ℝ
  y : ℝ
  z : ℝ

theorem Vec.ext_fields {a b : Vec}
    (hx : a.x = b.x) (hy : a.y = b.y) (hz : a.z = b.z) : a = b := by
  cases a
  cases b
  cases hx
  cases hy
  cases hz
  rfl

instance : Zero Vec := ⟨⟨0, 0, 0⟩⟩

instance : Add Vec := ⟨fun a b => ⟨a.x + b.x, a.y + b.y, a.z + b.z⟩⟩

instance : Sub Vec := ⟨fun a b => ⟨a.x - b.x, a.y - b.y, a.z - b.z⟩⟩

instance : Neg Vec := ⟨fun a => ⟨-a.x, -a.y, -a.z⟩⟩

instance : SMul ℝ Vec := ⟨fun c a => ⟨c * a.x, c * a.y, c * a.z⟩⟩

/-- `md::vector::norm`. -/
noncomputable def Vec.norm (v : Vec) : ℝ :=
  Real.sqrt (v.x ^ 2 + v.y ^ 2 + v.z ^ 2)

/-- Componentwise division by a scalar (`operator/=`). -/
noncomputable def Vec.vdiv (v : Vec) (s : ℝ) : Vec :=
  ⟨v.x / s, v.y / s, v.z / s⟩

/-- `md::vector::normalize` (the value at the zero vector is immaterial to
the claims, which assume a nonzero argument). -/
noncomputable def Vec.normalize (v : Vec) : Vec :=
  v.vdiv v.norm

/-- Modelled from the spec: `md::spring_potential` (external `md` library),
"standard two-sided harmonic potential u = k/2 (r − r0)²"; the force is its
negative gradient `−k (‖r‖ − r0) r / ‖r‖` (its value at `r = 0` is
immaterial to the claims, which assume a nonzero separation). -/
structure spring_potential where
  spring_constant : ℝ
  equilibrium_distance : ℝ

noncomputable def spring_potential.evaluate_energy
    (pot : spring_potential) (r : Vec) : ℝ :=
  pot.spring_constant / 2 * (r.norm - pot.equilibrium_distance) ^ 2

noncomputable def spring_potential.evaluate_force
    (pot : spring_potential) (r : Vec) : Vec :=
  (-(pot.spring_constant * (r.norm - pot.equilibrium_distance) / r.norm)) • r

/-- Modelled from the spec: `md::semispring_potential` (external `md`
library), the one-sided Hookean bond: "zero force when distance is below or
equal to an equilibrium distance … harmonic restoring force above it". -/
structure semispring_potential where
  spring_constant : ℝ
  equilibrium_distance : ℝ

noncomputable def semispring_potential.evaluate_energy
    (pot : semispring_potential) (r : Vec) : ℝ :=
  if r.norm ≤ pot.equilibrium_distance then 0
  else pot.spring_constant / 2 * (r.norm - pot.equilibrium_distance) ^ 2

noncomputable def semispring_potential.evaluate_force
    (pot : semispring_potential) (r : Vec) : Vec :=
  if r.norm ≤ pot.equilibrium_distance then 0
  else (-(pot.spring_constant * (r.norm - pot.equilibrium_distance) / r.norm)) • r

/-! # Kinetochore-fiber force field
(src/simulation/common/forcefield/kinetochore_fiber_forcefield.hpp) -/

/-- `kinetochore_fiber_forcefield::kinetochore_spec`. -/
structure kinetochore_spec where
  particle_index : ℕ
  mobility : ℝ
  decay_rate : ℝ
  stationary_length : ℝ

/-- The force-field state: a pole position and registered kinetochores. -/
structure kinetochore_fiber_forcefield where
  pole_position : Vec
  kinetochores : List kinetochore_spec

/-- `make_potential`: the effective spring with
`K = decay_rate / mobility` and `b = stationary_length`. -/
noncomputable def make_potential (spec : kinetochore_spec) : spring_potential :=
  ⟨spec.decay_rate / spec.mobility, spec.stationary_length⟩

/-- `kinetochore_fiber_forcefield::compute_energy`: sum, over registered
kinetochores, of the effective spring energy at
`r = positions[particle_index] − pole_position`. -/
noncomputable def kinetochore_fiber_forcefield.compute_energy
    (ff : kinetochore_fiber_forcefield) (positions : List Vec) : ℝ :=
  ff.kinetochores.foldl
    (fun energy spec =>
      energy +
        (make_potential spec).evaluate_energy
          (positions.getD spec.particle_index 0 - ff.pole_position))
    0

/-- `kinetochore_fiber_forcefield::compute_force`: for each registered
kinetochore, accumulate the effective spring force into that particle's
slot of the shared force buffer. -/
noncomputable def kinetochore_fiber_forcefield.compute_force
    (ff : kinetochore_fiber_forcefield) (positions : List Vec)
    (forces : List Vec) : List Vec :=
  ff.kinetochores.foldl
    (fun fs spec =>
      fs.set spec.particle_index
        (fs.getD spec.particle_index 0 +
          (make_potential spec).evaluate_force
            (positions.getD spec.particle_index 0 - ff.pole_position)))
    forces

/-! # Prometaphase transition
(src/simulation/stage_transition/transition_prometaphase.cpp) -/

/-- `chain_range` (the C++ field `end` is a Lean keyword and is called
`stop` here). -/
structure chain_range where
  start : ℕ
  stop : ℕ
  kinetochore : ℕ

/-- `count_particles`: total bead count of a chain list. -/
def count_particles (chains : List chain_range) : ℕ :=
  chains.foldl (fun acc c => acc + (c.stop - c.start)) 0

/-- `compute_centroid`: accumulate `point − origin` over the group, divide
by the count, add back the origin (the origin is the zero point). -/
noncomputable def compute_centroid (points : List Vec) : Vec :=
  let origin : Vec := 0
  let coords := points.foldl (fun acc p => acc + (p - origin)) 0
  origin + coords.vdiv (points.length : ℝ)

/-- `view_slice(xs, start, stop)` from misc.hpp: the subrange
`[start, stop)` of a position array. -/
def view_slice {α : Type} (xs : List α) (start stop : ℕ) : List α :=
  (xs.drop start).take (stop - start)

/-- One iteration of `transition_prometaphase`'s chromosome loop: coarse
grain chromosome `chrom_index` into its target chain and write the
displaced replica into its sister chain. -/
noncomputable def transition_chrom_step
    (coarse_graining : ℕ) (sister_displacement : Vec)
    (ichains pchains : List chain_range) (sisters : List (ℕ × ℕ))
    (interphase_positions : List Vec) (acc : List Vec) (chrom_index : ℕ) :
    List Vec :=
  let source_chain := ichains.getD chrom_index ⟨0, 0, 0⟩
  let si := sisters.getD chrom_index (0, 0)
  let target_chain := pchains.getD si.1 ⟨0, 0, 0⟩
  let sister_chain := pchains.getD si.2 ⟨0, 0, 0⟩
  let coarse_length := target_chain.stop - target_chain.start
  let source_length := source_chain.stop - source_chain.start
  (List.range coarse_length).foldl
    (fun acc2 offset =>
      let source_start := source_chain.start + coarse_graining * offset
      let source_stop :=
        min (source_start + coarse_graining) (source_start + source_length)
      let target_index := target_chain.start + offset
      let sister_index := sister_chain.start + offset
      let centroid :=
        compute_centroid (view_slice interphase_positions source_start source_stop)
      (acc2.set target_index centroid).set sister_index
        (centroid + sister_displacement))
    acc

/-- `transition_prometaphase` (the coarse-graining loop).  The
configuration fields it reads are passed directly:
`coarse_graining`, `sister_separation` and `spindle_axis` from
`config.mitotic_phase`; `ichains` is `interphase_design.chains`,
`pchains` is `prometaphase_design.chains`, and `sisters` is
`prometaphase_design.sister_chromatids`.  The output vector is
default-initialized (origin) like `std::vector<md::point>`. -/
noncomputable def transition_prometaphase
    (coarse_graining : ℕ) (sister_separation : ℝ) (spindle_axis : Vec)
    (ichains pchains : List chain_range) (sisters : List (ℕ × ℕ))
    (interphase_positions : List Vec) : List Vec :=
  let sister_displacement := (-sister_separation) • spindle_axis.normalize
  (List.range ichains.length).foldl
    (transition_chrom_step coarse_graining sister_displacement ichains pchains
      sisters interphase_positions)
    (List.replicate (count_particles pchains) 0)

/-! # Stage-driver initialization (for the state-mismatch claim)

`anatelophase` is src/unnamed/part_003 `run_initialization`;
`prometaphase` is src/unnamed/part_010 `run_initialization`;
`relaxation` is src/simulation/stage_interphase/simulation_driver_relaxation.cpp.
`stored` is `load_positions(0)` when `check_positions(0)` holds.  Errors
are C++ exceptions, modelled as `Except.error`.
-/

/-- `std::copy(src.begin(), src.end(), dest.begin())` for
`src.length ≤ dest.length`; a longer source overruns the buffer in C++
(undefined behavior), and the model then keeps the in-bounds prefix
behavior. -/
def copy_into {α : Type} (dest src : List α) : List α :=
  match dest, src with
  | [], _ => []
  | d :: ds, [] => d :: ds
  | _ :: ds, s :: ss => s :: copy_into ds ss

/-- part_003 `run_initialization`: a stored initial structure is optional;
when present its size is checked against the system, otherwise random rods
are built (`rods` is that branch's result, built in `anatelophase_run`
below). -/
def anatelophase_run_initialization {α : Type}
    (stored : Option (List α)) (sys : List α) (rods : List α) :
    Except String (List α) :=
  match stored with
  | some init =>
      if init.length ≠ sys.length then
        Except.error "initial structure size mismatch"
      else
        Except.ok (copy_into sys init)
  | none => Except.ok rods

/-- part_010 `run_initialization`: a stored initial structure is required
and its size is checked. -/
def prometaphase_run_initialization {α : Type}
    (stored : Option (List α)) (sys : List α) : Except String (List α) :=
  match stored with
  | none => Except.error "no initial structure is given"
  | some init =>
      if init.length ≠ sys.length then
        Except.error "initial structure size mismatch"
      else
        Except.ok (copy_into sys init)

/-- `run_relaxation`'s initialization: the loaded structure is copied into
the system view with no size check at all. -/
def relaxation_run_initialization {α : Type}
    (stored : List α) (sys : List α) : Except String (List α) :=
  Except.ok (copy_into sys stored)

/-- A stage run: initialization followed by integration; an initialization
error aborts before any integration. -/
def stage_run {α β : Type} (ini : Except String (List α))
    (integrate : List α → β) : Except String β :=
  ini.map integrate

/-! # Random-draw order in the anatelophase driver (src/unnamed/part_003)

Modelled from the spec: `std::mt19937_64` is a deterministic stream once
seeded, so a run's draws are `nf seed 0, nf seed 1, …` in order; `nf`
gives the value of a `std::normal_distribution` variate and `uf` the value
of a direct `operator()` call, both as abstract functions of the seed and
the draw position (a normal variate may consume several raw words; the
position counts variates, which preserves the order structure).  The
Brownian integrator is likewise modelled as an abstract deterministic
function `integrate` of the initial positions and the integrator seed.
-/

/-- Generator state: the seed it was constructed with and how many draws
have happened. -/
structure RNGState where
  seed : ℕ
  cursor : ℕ

def drawNormal (nf : ℕ → ℕ → ℝ) (r : RNGState) : ℝ × RNGState :=
  (nf r.seed r.cursor, ⟨r.seed, r.cursor + 1⟩)

def drawInt (uf : ℕ → ℕ → ℕ) (r : RNGState) : ℕ × RNGState :=
  (uf r.seed r.cursor, ⟨r.seed, r.cursor + 1⟩)

/-- `normal_vector`: three consecutive normal draws. -/
def normal_vector (nf : ℕ → ℕ → ℝ) (r : RNGState) : Vec × RNGState :=
  let a := drawNormal nf r
  let b := drawNormal nf a.2
  let c := drawNormal nf b.2
  (⟨a.1, b.1, c.1⟩, c.2)

/-- part_003 `run_initialization`, random-rod branch: per chain, one
`normal_vector` for the centroid and one for the rod direction, then the
beads are laid out along the rod. -/
noncomputable def anatelophase_random_rods
    (nf : ℕ → ℕ → ℝ) (chains : List chain_range)
    (bond_length anaphase_start_stddev : ℝ) (spindle_axis : Vec)
    (sys : List Vec) (r0 : RNGState) : List Vec × RNGState :=
  let start_center := (0 : Vec) - spindle_axis
  chains.foldl
    (fun (acc : List Vec × RNGState) chain =>
      let nv1 := normal_vector nf acc.2
      let centroid := start_center + anaphase_start_stddev • nv1.1
      let nv2 := normal_vector nf nv1.2
      let step := bond_length • nv2.1.normalize
      let beads :=
        (List.range (chain.stop - chain.start)).foldl
          (fun (st : List Vec × Vec) k => (st.1.set (chain.start + k) st.2, st.2 + step))
          (acc.1, centroid - (((chain.stop - chain.start : ℕ) : ℝ) / 2) • step)
      (beads.1, nv2.2))
    (sys, r0)

/-- The observable outcome of one anatelophase driver run. -/
structure anatelophase_result where
  init_positions : List Vec
  anaphase_seed : ℕ
  anaphase_traj : List Vec
  telophase_seed : ℕ
  telophase_traj : List Vec

/-- The anatelophase driver run (part_003): construction seeds the
generator with the stored design seed; `run_initialization` may draw for
random rods (a stored structure draws nothing); `run_dragging_stage` then
draws the anaphase integrator seed, and `run_packing_stage` the telophase
integrator seed. -/
noncomputable def anatelophase_run
    (nf : ℕ → ℕ → ℝ) (uf : ℕ → ℕ → ℕ)
    (integrateA integrateT : List Vec → ℕ → List Vec)
    (chains : List chain_range) (bond_length stddev : ℝ) (spindle_axis : Vec)
    (seed : ℕ) (stored : Option (List Vec)) :
    Except String anatelophase_result :=
  let n := count_particles chains
  let sys0 : List Vec := List.replicate n 0
  let r0 : RNGState := ⟨seed, 0⟩
  let ini : Except String (List Vec × RNGState) :=
    match stored with
    | some ip =>
        if ip.length ≠ n then Except.error "initial structure size mismatch"
        else Except.ok (copy_into sys0 ip, r0)
    | none =>
        Except.ok (anatelophase_random_rods nf chains bond_length stddev spindle_axis sys0 r0)
  ini.map fun pr =>
    let s1 := drawInt uf pr.2
    let traj1 := integrateA pr.1 s1.1
    let s2 := drawInt uf s1.2
    let traj2 := integrateT traj1 s2.1
    ⟨pr.1, s1.1, traj1, s2.1, traj2⟩

/-! # Interphase schedule state (src/unnamed/part_000, for the
contact-distance claim)

Only the schedule-relevant context fields are modelled; the wall-semiaxes
update touches none of them, and the stored snapshots do not feed back
into the schedule.
-/

structure interphase_schedule_config where
  timestep : ℝ
  contactmap_distance : ℝ
  core_scale_init : ℝ
  core_scale_tau : ℝ
  bond_scale_init : ℝ
  bond_scale_tau : ℝ

structure interphase_context_state where
  time : ℝ
  core_scale : ℝ
  bond_scale : ℝ
  contact_distance : ℝ

/-- `update_core_scale`: recompute the scales from `_context.time` and set
the contact map's distance to `contactmap_distance * core_scale`. -/
noncomputable def update_core_scale (cfg : interphase_schedule_config)
    (st : interphase_context_state) : interphase_context_state :=
  let t_bead := st.time / cfg.core_scale_tau
  let t_bond := st.time / cfg.bond_scale_tau
  let core := 1 - (1 - cfg.core_scale_init) * Real.exp (-t_bead)
  let bond := 1 - (1 - cfg.bond_scale_init) * Real.exp (-t_bond)
  ⟨st.time, core, bond, cfg.contactmap_distance * core⟩

/-- One `run_simulation` callback at step `s`, restricted to the schedule
state: `_context.time` is set first; the contact-map update inside the
callback reads the distance as it stands (it is refreshed by
`update_core_scale` only at the end of the callback). -/
noncomputable def interphase_callback (cfg : interphase_schedule_config)
    (st : interphase_context_state) (s : ℕ) : interphase_context_state :=
  update_core_scale cfg
    ⟨(s : ℝ) * cfg.timestep, st.core_scale, st.bond_scale, st.contact_distance⟩

/-- Schedule state on entry to callback `s` (callbacks run at steps
0, 1, …).  At entry to callback 0 the state is the one `setup_context`
built, with the contact map's default `_contact_distance = 0`. -/
noncomputable def interphase_state_before (cfg : interphase_schedule_config) :
    ℕ → interphase_context_state
  | 0 => ⟨0, cfg.core_scale_init, cfg.bond_scale_init, 0⟩
  | s + 1 => interphase_callback cfg (interphase_state_before cfg s) s

/-- The contact distance used by the contact-map update performed inside
callback `s` (when `s` hits the update interval). -/
noncomputable def contact_distance_at (cfg : interphase_schedule_config)
    (s : ℕ) : ℝ :=
  (interphase_state_before cfg s).contact_distance

/-- The closed-form core scale `1 − (1 − init) e^{−t/τ}`. -/
noncomputable def core_scale_fn (cfg : interphase_schedule_config) (t : ℝ) : ℝ :=
  1 - (1 - cfg.core_scale_init) * Real.exp (-(t / cfg.core_scale_tau))



/-- The source (interphase) chain of chromosome `c` as the transition reads
it. -/
def src_chain (ichains : List chain_range) (c : ℕ) : chain_range :=
  ichains.getD c ⟨0, 0, 0⟩

/-- The target chromatid chain of chromosome `c`. -/
def tgt_chain (pchains : List chain_range) (sisters : List (ℕ × ℕ)) (c : ℕ) :
    chain_range :=
  pchains.getD (sisters.getD c (0, 0)).1 ⟨0, 0, 0⟩

/-- The sister chromatid chain of chromosome `c`. -/
def sis_chain (pchains : List chain_range) (sisters : List (ℕ × ℕ)) (c : ℕ) :
    chain_range :=
  pchains.getD (sisters.getD c (0, 0)).2 ⟨0, 0, 0⟩

/-- The centroid the transition computes for offset `k` of chromosome `c`
(window clipped exactly as the code clips it). -/
noncomputable def window_centroid (coarse_graining : ℕ)
    (ichains : List chain_range) (interphase_positions : List Vec)
    (c k : ℕ) : Vec :=
  compute_centroid
    (view_slice interphase_positions
      ((src_chain ichains c).start + coarse_graining * k)
      (min ((src_chain ichains c).start + coarse_graining * k + coarse_graining)
        ((src_chain ichains c).start + coarse_graining * k +
          ((src_chain ichains c).stop - (src_chain ichains c).start))))



/-- Two index blocks `[a, a+la)` and `[b, b+lb)` do not overlap. -/
def blocks_apart (a la b lb : ℕ) : Prop :=
  a + la ≤ b ∨ b + lb ≤ a

instance (a la b lb : ℕ) : Decidable (blocks_apart a la b lb) := by
  unfold blocks_apart
  infer_instance


-- ===DEFS-CONTINUE-HERE===

/-! # PART II: lemmas and claim theorems -/

/-! ## Contact-map lemmas (for C2, C3, C10) -/

theorem contact_map.count_bump (m : ContactState) (p q : contact_pair) :
    contact_map.count (contact_map.bump m p) q =
      if q = p then (contact_map.count m q + 1) % 2 ^ 32
      else contact_map.count m q := by
  induction m with
  | nil =>
      by_cases h : q = p
      · simp [contact_map.bump, contact_map.count, h]
      · simp [contact_map.bump, contact_map.count, h, mt Eq.symm h]
  | cons e rest ih =>
      obtain ⟨r, c⟩ := e
      by_cases hrp : r = p
      · subst hrp
        by_cases hq : q = r <;>
          simp [contact_map.bump, contact_map.count, hq, eq_comm]
      · by_cases hq : q = r <;>
          simp [contact_map.bump, contact_map.count, hrp, hq, ih, eq_comm]

/-- On a program-representable state (all stored counts below 2^32, as
forced by `std::uint32_t`) every count reads back below 2^32. -/
theorem contact_map.count_lt_of_rep (m : ContactState) (p : contact_pair)
    (h : ∀ e ∈ m, e.2 < 2 ^ 32) : contact_map.count m p < 2 ^ 32 := by
  induction m with
  | nil => norm_num [contact_map.count]
  | cons e rest ih =>
      obtain ⟨r, c⟩ := e
      rw [contact_map.count]
      split_ifs with hr
      · exact h (r, c) (List.mem_cons_self _ _)
      · exact ih fun e' he' => h e' (List.mem_cons_of_mem _ he')

/-- The key list of a bumped state: an existing key is kept in place, a
fresh key is appended. -/
theorem contact_map.keys_bump (m : ContactState) (p : contact_pair) :
    (contact_map.bump m p).map Prod.fst =
      if p ∈ m.map Prod.fst then m.map Prod.fst else m.map Prod.fst ++ [p] := by
  induction m with
  | nil => simp [contact_map.bump]
  | cons e rest ih =>
      obtain ⟨r, c⟩ := e
      by_cases hrp : r = p
      · subst hrp
        simp [contact_map.bump]
      · by_cases hmem : p ∈ rest.map Prod.fst <;>
          simp [contact_map.bump, hrp, Ne.symm hrp, hmem, ih]

theorem contact_map.count_foldl_record (l : List (ℕ × ℕ)) (m : ContactState)
    (p : contact_pair) (hc : contact_map.count m p < 2 ^ 32) :
    contact_map.count (l.foldl contact_map.record m) p =
      (contact_map.count m p + (l.map contact_map.castPair).count p) % 2 ^ 32 := by
  induction l generalizing m with
  | nil =>
      rw [List.foldl_nil, List.map_nil, List.count_nil, Nat.add_zero,
        Nat.mod_eq_of_lt hc]
  | cons pr rest ih =>
      have hc' : contact_map.count (contact_map.record m pr) p < 2 ^ 32 := by
        rw [contact_map.record, contact_map.count_bump]
        split_ifs
        · exact Nat.mod_lt _ (by norm_num)
        · exact hc
      by_cases h : p = contact_map.castPair pr
      · have hcnt : ((pr :: rest).map contact_map.castPair).count p =
            (rest.map contact_map.castPair).count p + 1 := by
          simp [List.count_cons, h]
        rw [List.foldl_cons, ih _ hc', contact_map.record, contact_map.count_bump,
          if_pos h, hcnt, Nat.mod_add_mod]
        congr 1
        omega
      · have hcnt : ((pr :: rest).map contact_map.castPair).count p =
            (rest.map contact_map.castPair).count p := by
          simp [List.count_cons, beq_iff_eq, Ne.symm h]
        rw [List.foldl_cons, ih _ hc', contact_map.record, contact_map.count_bump,
          if_neg h, hcnt]

theorem mem_closePairs {d : ℚ} {points : List QPoint} {i j : ℕ} :
    (i, j) ∈ closePairs d points ↔
      i < j ∧ j < points.length ∧
        QPoint.sqdist (points.getD i ⟨0, 0, 0⟩) (points.getD j ⟨0, 0, 0⟩) ≤ d ^ 2 := by
  simp only [closePairs, List.mem_flatMap, List.mem_filterMap, List.mem_range]
  constructor
  · rintro ⟨j', hj', i', hi', h⟩
    split_ifs at h with hc
    · simp only [Option.some.injEq, Prod.mk.injEq] at h
      obtain ⟨rfl, rfl⟩ := h
      exact ⟨hi', hj', hc⟩
  · rintro ⟨hij, hj, hc⟩
    exact ⟨j, hj, i, hij, by rw [if_pos hc]⟩

theorem nodup_closePairs (d : ℚ) (points : List QPoint) : (closePairs d points).Nodup := by
  rw [closePairs, List.nodup_flatMap]
  refine ⟨fun j _ => ?_, ?_⟩
  · refine List.Nodup.filterMap ?_ (List.nodup_range _)
    intro a a' b hb hb'
    rw [Option.mem_def] at hb hb'
    split_ifs at hb with hc
    split_ifs at hb' with hc'
    injection hb with h
    injection hb' with h'
    have : (a, j) = (a', j) := h.trans h'.symm
    exact (Prod.mk.injEq .. ▸ this).1
  · refine (List.pairwise_lt_range _).imp ?_
    intro j j' hlt x hx hx'
    simp only [List.mem_filterMap, List.mem_range] at hx hx'
    obtain ⟨i, _, hi⟩ := hx
    obtain ⟨i', _, hi'⟩ := hx'
    split_ifs at hi with hc
    injection hi with h
    subst h
    split_ifs at hi' with hc'
    injection hi' with h'
    have : j' = j := congrArg Prod.snd h'
    omega

/-- For a second component below 2^32 the key packing is the obvious
arithmetic one. -/
theorem encode_ij_eq_add {i j : ℕ} (hj : j < 2 ^ 32) :
    encode_ij i j = 2 ^ 32 * i + j := by
  rw [encode_ij, Nat.shiftLeft_eq, Nat.mul_comm i (2 ^ 32)]
  exact (Nat.mul_add_lt_is_or hj i).symm

theorem encode_ij_inj {i j i' j' : ℕ} (hj : j < 2 ^ 32) (hj' : j' < 2 ^ 32)
    (h : encode_ij i j = encode_ij i' j') : i = i' ∧ j = j' := by
  rw [encode_ij_eq_add hj, encode_ij_eq_add hj'] at h
  constructor <;> omega

theorem sorted_lt_of_sorted_le_nodup {l : List (ℕ × ℕ × ℕ)}
    (hs : l.Sorted fun a b => tripleKey a ≤ tripleKey b)
    (hn : (l.map tripleKey).Nodup) :
    l.Sorted fun a b => tripleKey a < tripleKey b := by
  have hp : l.Pairwise fun a b => tripleKey a ≠ tripleKey b :=
    (List.pairwise_map).mp hn
  exact hs.imp₂ (fun a b h hne => lt_of_le_of_ne h hne) hp

/-- Distinct stored keys give distinct 64-bit sort keys (packing is
injective below 2^32). -/
theorem accumulate_keys_nodup (m : ContactState)
    (hkeys : (m.map Prod.fst).Nodup)
    (hbound : ∀ e ∈ m, e.1.i < 2 ^ 32 ∧ e.1.j < 2 ^ 32) :
    ((m.map fun e => (e.1.i, e.1.j, e.2)).map tripleKey).Nodup := by
  rw [List.map_map]
  have hk : m.Pairwise fun e e' => e.1 ≠ e'.1 := (List.pairwise_map).mp hkeys
  have hk' : m.Pairwise fun e e' =>
      (tripleKey ∘ fun e => (e.1.i, e.1.j, e.2)) e ≠
        (tripleKey ∘ fun e => (e.1.i, e.1.j, e.2)) e' := by
    refine hk.imp_of_mem ?_
    intro e e' he he' hne heq
    simp only [Function.comp, tripleKey] at heq
    obtain ⟨h1, h2⟩ :=
      encode_ij_inj (hbound e he).2 (hbound e' he').2 heq
    apply hne
    calc e.1 = (⟨e.1.i, e.1.j⟩ : contact_pair) := rfl
      _ = (⟨e'.1.i, e'.1.j⟩ : contact_pair) := by rw [h1, h2]
      _ = e'.1 := rfl
  exact (List.pairwise_map).mpr hk'

/-- On the pairs the searcher actually reports (indices below the point
count ≤ 2^32) the `std::uint32_t` narrowing is the identity. -/
theorem castPair_closePairs (d : ℚ) (points : List QPoint)
    (hlen : points.length ≤ 2 ^ 32) :
    (closePairs d points).map contact_map.castPair =
      (closePairs d points).map (fun pr => (⟨pr.1, pr.2⟩ : contact_pair)) := by
  refine List.map_congr_left ?_
  intro pr hpr
  obtain ⟨i, j⟩ := pr
  rw [mem_closePairs] at hpr
  obtain ⟨hij, hjlen, -⟩ := hpr
  have hi : i < 2 ^ 32 := lt_of_lt_of_le (hij.trans hjlen) hlen
  have hj : j < 2 ^ 32 := lt_of_lt_of_le hjlen hlen
  show (⟨i % 2 ^ 32, j % 2 ^ 32⟩ : contact_pair) = ⟨i, j⟩
  rw [Nat.mod_eq_of_lt hi, Nat.mod_eq_of_lt hj]

theorem count_map_mkPair_not_mem {l : List (ℕ × ℕ)} {i j : ℕ}
    (hmem : (i, j) ∉ l) :
    (l.map fun pr => (⟨pr.1, pr.2⟩ : contact_pair)).count ⟨i, j⟩ = 0 := by
  induction l with
  | nil => simp
  | cons a rest ih =>
      obtain ⟨a1, a2⟩ := a
      have hne : ¬(a1 = i ∧ a2 = j) := by
        intro h
        exact hmem (by simp [h.1, h.2])
      have hrest : (i, j) ∉ rest := fun h => hmem (List.mem_cons_of_mem _ h)
      have hA : ¬(i = a1 ∧ j = a2) := fun h => hne ⟨h.1.symm, h.2.symm⟩
      simp only [List.map_cons, List.count_cons, ih hrest, beq_iff_eq,
        contact_pair.mk.injEq]
      simp [hA, hne]

theorem count_map_mkPair_mem {l : List (ℕ × ℕ)} {i j : ℕ}
    (hnd : l.Nodup) (hmem : (i, j) ∈ l) :
    (l.map fun pr => (⟨pr.1, pr.2⟩ : contact_pair)).count ⟨i, j⟩ = 1 := by
  induction l with
  | nil => cases hmem
  | cons a rest ih =>
      obtain ⟨a1, a2⟩ := a
      rw [List.nodup_cons] at hnd
      rcases List.mem_cons.mp hmem with heq | hrest
      · obtain ⟨rfl, rfl⟩ := Prod.mk.injEq .. ▸ heq.symm
        have h0 : (a1, a2) ∉ rest := hnd.1
        simp [List.count_cons, count_map_mkPair_not_mem h0]
      · have hne : ¬(a1 = i ∧ a2 = j) := by
          intro h
          obtain ⟨rfl, rfl⟩ := h
          exact hnd.1 hrest
        have hA : ¬(i = a1 ∧ j = a2) := fun h => hne ⟨h.1.symm, h.2.symm⟩
        simp only [List.map_cons, List.count_cons, ih hnd.2 hrest, beq_iff_eq,
          contact_pair.mk.injEq]
        simp [hA, hne]

/-- **C3** (as amended): on every program-representable state (each stored
`std::uint32_t` count is below 2^32), `update(P)` adds 1 modulo 2^32 to the
counter of exactly the pairs the neighbor search finds within the current
contact distance — so by exactly 1 whenever the current count is below
2^32 − 1, while a count of 2^32 − 1 wraps to 0; every other pair's count
is unchanged; hence two identical `update(P)` calls starting from the
empty state give every pair twice the count of a single call, and
`clear()` followed by `accumulate()` gives an empty list. -/
theorem c3_contact_map_update_round_trip (d : ℚ) (points : List QPoint)
    (m : ContactState) (hlen : points.length ≤ 2 ^ 32)
    (hrep : ∀ e ∈ m, e.2 < 2 ^ 32) :
    (∀ i j : ℕ, i < j → j < points.length →
        QPoint.sqdist (points.getD i ⟨0, 0, 0⟩) (points.getD j ⟨0, 0, 0⟩) ≤ d ^ 2 →
        contact_map.count (contact_map.update d points m) ⟨i, j⟩ =
          (contact_map.count m ⟨i, j⟩ + 1) % 2 ^ 32) ∧
    (∀ i j : ℕ, i < j → j < points.length →
        QPoint.sqdist (points.getD i ⟨0, 0, 0⟩) (points.getD j ⟨0, 0, 0⟩) ≤ d ^ 2 →
        contact_map.count m ⟨i, j⟩ < 2 ^ 32 - 1 →
        contact_map.count (contact_map.update d points m) ⟨i, j⟩ =
          contact_map.count m ⟨i, j⟩ + 1) ∧
    (∀ i j : ℕ,
        ¬(i < j ∧ j < points.length ∧
            QPoint.sqdist (points.getD i ⟨0, 0, 0⟩) (points.getD j ⟨0, 0, 0⟩) ≤ d ^ 2) →
        contact_map.count (contact_map.update d points m) ⟨i, j⟩ =
          contact_map.count m ⟨i, j⟩) ∧
    (∀ p : contact_pair,
        contact_map.count
            (contact_map.update d points (contact_map.update d points contact_map.clear)) p =
          2 * contact_map.count (contact_map.update d points contact_map.clear) p) ∧
    contact_map.accumulate contact_map.clear = [] := by
  have base : ∀ (m' : ContactState) (p : contact_pair),
      contact_map.count m' p < 2 ^ 32 →
      contact_map.count (contact_map.update d points m') p =
        (contact_map.count m' p +
          ((closePairs d points).map contact_map.castPair).count p) % 2 ^ 32 :=
    fun m' p h => contact_map.count_foldl_record (closePairs d points) m' p h
  have hone : (1 : ℕ) ≤ 2 ^ 32 := by norm_num
  have hfound : ∀ i j : ℕ, i < j → j < points.length →
      QPoint.sqdist (points.getD i ⟨0, 0, 0⟩) (points.getD j ⟨0, 0, 0⟩) ≤ d ^ 2 →
      ((closePairs d points).map contact_map.castPair).count ⟨i, j⟩ = 1 := by
    intro i j hij hjlen hsq
    rw [castPair_closePairs d points hlen]
    exact count_map_mkPair_mem (nodup_closePairs d points)
      (mem_closePairs.mpr ⟨hij, hjlen, hsq⟩)
  refine ⟨?_, ?_, ?_, ?_, rfl⟩
  · intro i j hij hjlen hsq
    rw [base m ⟨i, j⟩ (contact_map.count_lt_of_rep m _ hrep),
      hfound i j hij hjlen hsq]
  · intro i j hij hjlen hsq hlt
    rw [base m ⟨i, j⟩ (contact_map.count_lt_of_rep m _ hrep),
      hfound i j hij hjlen hsq]
    exact Nat.mod_eq_of_lt (by omega)
  · intro i j hnot
    have h0 : ((closePairs d points).map contact_map.castPair).count ⟨i, j⟩ = 0 := by
      rw [castPair_closePairs d points hlen]
      exact count_map_mkPair_not_mem (fun hmem => hnot (mem_closePairs.mp hmem))
    rw [base m ⟨i, j⟩ (contact_map.count_lt_of_rep m _ hrep), h0, Nat.add_zero,
      Nat.mod_eq_of_lt (contact_map.count_lt_of_rep m _ hrep)]
  · intro p
    obtain ⟨i, j⟩ := p
    have h0 : contact_map.count contact_map.clear ⟨i, j⟩ = 0 := rfl
    have hclear : contact_map.count contact_map.clear ⟨i, j⟩ < 2 ^ 32 := by
      rw [h0]; norm_num
    have hu1 : contact_map.count (contact_map.update d points contact_map.clear)
        ⟨i, j⟩ < 2 ^ 32 := by
      rw [base contact_map.clear ⟨i, j⟩ hclear]
      exact Nat.mod_lt _ (by norm_num)
    rw [base _ ⟨i, j⟩ hu1, base contact_map.clear ⟨i, j⟩ hclear, h0]
    by_cases hm : (i, j) ∈ closePairs d points
    · have h1 : ((closePairs d points).map contact_map.castPair).count ⟨i, j⟩ = 1 := by
        rw [castPair_closePairs d points hlen]
        exact count_map_mkPair_mem (nodup_closePairs d points) hm
      rw [h1]
      norm_num
    · have h1 : ((closePairs d points).map contact_map.castPair).count ⟨i, j⟩ = 0 := by
        rw [castPair_closePairs d points hlen]
        exact count_map_mkPair_not_mem hm
      rw [h1]
      norm_num

/-- Witness for C3 at a concrete input: two points at distance 1 with
cutoff 1, starting from the empty (hence representable) state. -/
theorem c3_witness :
    ([(⟨0, 0, 0⟩ : QPoint), ⟨1, 0, 0⟩].length ≤ 2 ^ 32) ∧
    (∀ e ∈ ([] : ContactState), e.2 < 2 ^ 32) ∧
    ((∀ i j : ℕ, i < j → j < [(⟨0, 0, 0⟩ : QPoint), ⟨1, 0, 0⟩].length →
        QPoint.sqdist ([(⟨0, 0, 0⟩ : QPoint), ⟨1, 0, 0⟩].getD i ⟨0, 0, 0⟩)
            ([(⟨0, 0, 0⟩ : QPoint), ⟨1, 0, 0⟩].getD j ⟨0, 0, 0⟩) ≤ (1 : ℚ) ^ 2 →
        contact_map.count
            (contact_map.update 1 [(⟨0, 0, 0⟩ : QPoint), ⟨1, 0, 0⟩] []) ⟨i, j⟩ =
          (contact_map.count [] ⟨i, j⟩ + 1) % 2 ^ 32) ∧
    (∀ i j : ℕ, i < j → j < [(⟨0, 0, 0⟩ : QPoint), ⟨1, 0, 0⟩].length →
        QPoint.sqdist ([(⟨0, 0, 0⟩ : QPoint), ⟨1, 0, 0⟩].getD i ⟨0, 0, 0⟩)
            ([(⟨0, 0, 0⟩ : QPoint), ⟨1, 0, 0⟩].getD j ⟨0, 0, 0⟩) ≤ (1 : ℚ) ^ 2 →
        contact_map.count [] ⟨i, j⟩ < 2 ^ 32 - 1 →
        contact_map.count
            (contact_map.update 1 [(⟨0, 0, 0⟩ : QPoint), ⟨1, 0, 0⟩] []) ⟨i, j⟩ =
          contact_map.count [] ⟨i, j⟩ + 1) ∧
    (∀ i j : ℕ,
        ¬(i < j ∧ j < [(⟨0, 0, 0⟩ : QPoint), ⟨1, 0, 0⟩].length ∧
            QPoint.sqdist ([(⟨0, 0, 0⟩ : QPoint), ⟨1, 0, 0⟩].getD i ⟨0, 0, 0⟩)
              ([(⟨0, 0, 0⟩ : QPoint), ⟨1, 0, 0⟩].getD j ⟨0, 0, 0⟩) ≤ (1 : ℚ) ^ 2) →
        contact_map.count
            (contact_map.update 1 [(⟨0, 0, 0⟩ : QPoint), ⟨1, 0, 0⟩] []) ⟨i, j⟩ =
          contact_map.count [] ⟨i, j⟩) ∧
    (∀ p : contact_pair,
        contact_map.count
            (contact_map.update 1 [(⟨0, 0, 0⟩ : QPoint), ⟨1, 0, 0⟩]
              (contact_map.update 1 [(⟨0, 0, 0⟩ : QPoint), ⟨1, 0, 0⟩]
                contact_map.clear)) p =
          2 * contact_map.count
              (contact_map.update 1 [(⟨0, 0, 0⟩ : QPoint), ⟨1, 0, 0⟩]
                contact_map.clear) p) ∧
    contact_map.accumulate contact_map.clear = []) :=
  ⟨by norm_num, by simp,
    c3_contact_map_update_round_trip 1 [⟨0, 0, 0⟩, ⟨1, 0, 0⟩] [] (by norm_num)
      (by simp)⟩

/-- **C3 counterexample** to the claim as stated: the per-pair counter is a
`std::uint32_t`, so on the (reachable) state where a close pair's count is
already 2^32 − 1, one more update wraps that count to 0 — not to the
exact increment 2^32 the claim's "by exactly 1" asserts for every state. -/
theorem c3_counterexample :
    contact_map.count
        (contact_map.update 1 [(⟨0, 0, 0⟩ : QPoint), ⟨1, 0, 0⟩]
          [(⟨0, 1⟩, 2 ^ 32 - 1)]) ⟨0, 1⟩ = 0 ∧
    contact_map.count [((⟨0, 1⟩ : contact_pair), 2 ^ 32 - 1)] ⟨0, 1⟩ + 1 =
      2 ^ 32 := by
  have h : contact_map.update 1 [(⟨0, 0, 0⟩ : QPoint), ⟨1, 0, 0⟩]
      [(⟨0, 1⟩, 2 ^ 32 - 1)] = [(⟨0, 1⟩, 0)] := by
    norm_num [contact_map.update, contact_map.record, contact_map.castPair,
      contact_map.bump, closePairs, QPoint.sqdist, List.range_succ,
      List.filterMap_cons]
  exact ⟨by rw [h]; rfl, by norm_num [contact_map.count]⟩

/-- **C2**: for every contact-map state (distinct stored keys, all counts
positive — the invariants `update` maintains — and 32-bit indices),
`accumulate()` returns exactly the recorded pairs with count > 0 as
(i, j, count) triples, strictly ascending in the 64-bit key
`(i<<32)|j`, and the result is independent of the order in which the
pairs were inserted into the hash map. -/
theorem c2_accumulate_sorted_output (m : ContactState)
    (hkeys : (m.map Prod.fst).Nodup)
    (hpos : ∀ e ∈ m, 0 < e.2)
    (hbound : ∀ e ∈ m, e.1.i < 2 ^ 32 ∧ e.1.j < 2 ^ 32) :
    (contact_map.accumulate m).Perm
        ((m.filter fun e => 0 < e.2).map fun e => (e.1.i, e.1.j, e.2)) ∧
    (contact_map.accumulate m).Sorted (fun a b => tripleKey a < tripleKey b) ∧
    (∀ m' : ContactState, m.Perm m' →
        contact_map.accumulate m' = contact_map.accumulate m) := by
  have hfilter : (m.filter fun e => 0 < e.2) = m :=
    List.filter_eq_self.mpr fun e he => by simpa using hpos e he
  have hperm : (contact_map.accumulate m).Perm (m.map fun e => (e.1.i, e.1.j, e.2)) :=
    List.perm_insertionSort _ _
  have hsorted_le :
      (contact_map.accumulate m).Sorted fun a b => tripleKey a ≤ tripleKey b :=
    List.sorted_insertionSort _ _
  have hkn : ((m.map fun e => (e.1.i, e.1.j, e.2)).map tripleKey).Nodup :=
    accumulate_keys_nodup m hkeys hbound
  have hkn' : ((contact_map.accumulate m).map tripleKey).Nodup :=
    ((hperm.map tripleKey).nodup_iff).mpr hkn
  have hsorted := sorted_lt_of_sorted_le_nodup hsorted_le hkn'
  refine ⟨by rw [hfilter]; exact hperm, hsorted, ?_⟩
  intro m' hm
  have hkeys' : (m'.map Prod.fst).Nodup := ((hm.map Prod.fst).nodup_iff).mp hkeys
  have hbound' : ∀ e ∈ m', e.1.i < 2 ^ 32 ∧ e.1.j < 2 ^ 32 :=
    fun e he => hbound e (hm.mem_iff.mpr he)
  have hperm' :
      (contact_map.accumulate m').Perm (m'.map fun e => (e.1.i, e.1.j, e.2)) :=
    List.perm_insertionSort _ _
  have hkn2 : ((m'.map fun e => (e.1.i, e.1.j, e.2)).map tripleKey).Nodup :=
    accumulate_keys_nodup m' hkeys' hbound'
  have hkn2' : ((contact_map.accumulate m').map tripleKey).Nodup :=
    ((hperm'.map tripleKey).nodup_iff).mpr hkn2
  have hsorted' :=
    sorted_lt_of_sorted_le_nodup (List.sorted_insertionSort _ _) hkn2'
  have hpp : (contact_map.accumulate m').Perm (contact_map.accumulate m) :=
    hperm'.trans ((hm.symm.map fun e => (e.1.i, e.1.j, e.2)).trans hperm.symm)
  exact List.eq_of_perm_of_sorted hpp hsorted' hsorted

/-- Witness for C2 at a concrete two-entry state (inserted out of key
order). -/
theorem c2_witness :
    (([(⟨1, 2⟩, 3), (⟨0, 5⟩, 1)] : ContactState).map Prod.fst).Nodup ∧
    (∀ e ∈ ([(⟨1, 2⟩, 3), (⟨0, 5⟩, 1)] : ContactState), 0 < e.2) ∧
    (∀ e ∈ ([(⟨1, 2⟩, 3), (⟨0, 5⟩, 1)] : ContactState),
        e.1.i < 2 ^ 32 ∧ e.1.j < 2 ^ 32) ∧
    ((contact_map.accumulate [(⟨1, 2⟩, 3), (⟨0, 5⟩, 1)]).Perm
        ((([(⟨1, 2⟩, 3), (⟨0, 5⟩, 1)] : ContactState).filter
            fun e => 0 < e.2).map fun e => (e.1.i, e.1.j, e.2)) ∧
      (contact_map.accumulate [(⟨1, 2⟩, 3), (⟨0, 5⟩, 1)]).Sorted
        (fun a b => tripleKey a < tripleKey b) ∧
      (∀ m' : ContactState, ([(⟨1, 2⟩, 3), (⟨0, 5⟩, 1)] : ContactState).Perm m' →
          contact_map.accumulate m' =
            contact_map.accumulate [(⟨1, 2⟩, 3), (⟨0, 5⟩, 1)])) :=
  ⟨by decide, by decide, by decide,
    c2_accumulate_sorted_output [(⟨1, 2⟩, 3), (⟨0, 5⟩, 1)]
      (by decide) (by decide) (by decide)⟩

/-! ## Quantization lemmas and C9 -/

theorem nearbyintQ_intCast (n : ℤ) : nearbyintQ (n : ℚ) = n := by
  rw [nearbyintQ, Int.fract_intCast, if_neg (by norm_num), round_intCast]

theorem abs_nearbyintQ_sub_le (z : ℚ) : |(nearbyintQ z : ℚ) - z| ≤ 1 / 2 := by
  rw [nearbyintQ]
  split_ifs with h1 h2
  · have hz : z = (⌊z⌋ : ℚ) + 1 / 2 := by
      have := Int.fract_add_floor z
      rw [h1] at this
      linarith [this]
    rw [hz]
    norm_num
    rw [abs_of_nonneg (by norm_num : (0 : ℚ) ≤ 1 / 2)]
  · have hz : z = (⌊z⌋ : ℚ) + 1 / 2 := by
      have := Int.fract_add_floor z
      rw [h1] at this
      linarith [this]
    rw [hz]
    push_cast
    norm_num
    rw [abs_of_nonneg (by norm_num : (0 : ℚ) ≤ 1 / 2)]
  · rw [abs_sub_comm]
    exact abs_sub_round z

theorem Int.log_eq_of_bounds {r : ℚ} {z : ℤ} (hr : 0 < r)
    (h1 : (2 : ℚ) ^ z ≤ r) (h2 : r < (2 : ℚ) ^ (z + 1)) : Int.log 2 r = z := by
  have ha : z ≤ Int.log 2 r := (Int.zpow_le_iff_le_log (by norm_num) hr).mp (by exact_mod_cast h1)
  have hb : Int.log 2 r < z + 1 := (Int.lt_zpow_iff_log_lt (by norm_num) hr).mp (by exact_mod_cast h2)
  omega

theorem quantize_int_mul_zpow (s k : ℤ) (h1 : (2 : ℤ) ^ 15 ≤ |s|)
    (h2 : |s| < (2 : ℤ) ^ 16) :
    quantize ((s : ℚ) * 2 ^ k) 16 = (s : ℚ) * 2 ^ k := by
  have hs0 : s ≠ 0 := by
    intro h
    rw [h] at h1
    norm_num at h1
  have hy0 : (s : ℚ) * 2 ^ k ≠ 0 :=
    mul_ne_zero (Int.cast_ne_zero.mpr hs0) (zpow_ne_zero _ two_ne_zero)
  have habs : |(s : ℚ) * 2 ^ k| = |(s : ℚ)| * 2 ^ k := by
    rw [abs_mul, abs_of_pos (zpow_pos (by norm_num : (0 : ℚ) < 2) k)]
  have hcast1 : ((2 : ℚ) ^ (15 : ℤ)) ≤ |(s : ℚ)| := by
    rw [← Int.cast_abs]
    exact_mod_cast h1
  have hcast2 : |(s : ℚ)| < (2 : ℚ) ^ (16 : ℤ) := by
    rw [← Int.cast_abs]
    exact_mod_cast h2
  have hlog : Int.log 2 |(s : ℚ) * 2 ^ k| = 15 + k := by
    apply Int.log_eq_of_bounds (abs_pos.mpr hy0)
    · rw [habs, zpow_add₀ (two_ne_zero : (2 : ℚ) ≠ 0)]
      exact mul_le_mul_of_nonneg_right hcast1 (le_of_lt (zpow_pos (by norm_num) k))
    · rw [habs, show (15 : ℤ) + k + 1 = 16 + k by ring,
        zpow_add₀ (two_ne_zero : (2 : ℚ) ≠ 0)]
      exact mul_lt_mul_of_pos_right hcast2 (zpow_pos (by norm_num) k)
  simp only [quantize, frexpQ, if_neg hy0, hlog]
  have hmant : (s : ℚ) * 2 ^ k / 2 ^ (15 + k + 1) * 2 ^ (16 : ℤ) = (s : ℚ) := by
    rw [div_mul_eq_mul_div, mul_assoc, ← zpow_add₀ (two_ne_zero : (2 : ℚ) ≠ 0),
      div_eq_iff (zpow_ne_zero _ (two_ne_zero : (2 : ℚ) ≠ 0)),
      show (15 : ℤ) + k + 1 = k + 16 by ring]
  rw [hmant, nearbyintQ_intCast, show (15 : ℤ) + k + 1 - 16 = k by ring]

theorem quantize_int_mul_zpow_top (s k : ℤ) (h : |s| = (2 : ℤ) ^ 16) :
    quantize ((s : ℚ) * 2 ^ k) 16 = (s : ℚ) * 2 ^ k := by
  rcases (abs_eq (by positivity : (0 : ℤ) ≤ 2 ^ 16)).mp h with hs | hs
  · subst hs
    have hy : (((2 : ℤ) ^ 16 : ℤ) : ℚ) * 2 ^ k = (((2 : ℤ) ^ 15 : ℤ) : ℚ) * 2 ^ (k + 1) := by
      rw [zpow_add_one₀ (two_ne_zero : (2 : ℚ) ≠ 0) k]
      push_cast
      ring
    rw [hy]
    exact quantize_int_mul_zpow (2 ^ 15) (k + 1) (by norm_num) (by norm_num)
  · subst hs
    have hy : ((-(2 : ℤ) ^ 16 : ℤ) : ℚ) * 2 ^ k = ((-(2 : ℤ) ^ 15 : ℤ) : ℚ) * 2 ^ (k + 1) := by
      rw [zpow_add_one₀ (two_ne_zero : (2 : ℚ) ≠ 0) k]
      push_cast
      ring
    rw [hy]
    exact quantize_int_mul_zpow (-(2 ^ 15)) (k + 1) (by norm_num) (by norm_num)

/-- **C9**: the position quantization is idempotent: for every coordinate
`x`, `quantize(quantize(x, 16), 16) = quantize(x, 16)`. -/
theorem c9_quantize_idempotent (x : ℚ) :
    quantize (quantize x 16) 16 = quantize x 16 := by
  by_cases hx : x = 0
  · subst hx
    have h0 : quantize 0 16 = 0 := by
      norm_num [quantize, frexpQ, nearbyintQ]
    rw [h0, h0]
  · have hx' : (0 : ℚ) < |x| := abs_pos.mpr hx
    set e := Int.log 2 |x| + 1 with he
    have hlow : (2 : ℚ) ^ (e - 1) ≤ |x| := by
      rw [show e - 1 = Int.log 2 |x| by omega]
      exact Int.zpow_log_le_self (by norm_num) hx'
    have hhigh : |x| < 2 ^ e := by
      rw [he]
      exact Int.lt_zpow_succ_log_self (by norm_num) |x|
    have hq : quantize x 16 =
        ((nearbyintQ (x / 2 ^ e * 2 ^ (16 : ℤ))) : ℚ) * 2 ^ (e - 16) := by
      simp only [quantize, frexpQ, if_neg hx]
    set s := nearbyintQ (x / 2 ^ e * 2 ^ (16 : ℤ)) with hs
    have hepos : (0 : ℚ) < 2 ^ e := zpow_pos (by norm_num) e
    have hm_up : |x / 2 ^ e| < 1 := by
      rw [abs_div, abs_of_pos hepos, div_lt_one hepos]
      exact hhigh
    have hm_low : 1 / 2 ≤ |x / 2 ^ e| := by
      rw [abs_div, abs_of_pos hepos, le_div_iff₀ hepos]
      have h2e : (2 : ℚ) ^ (e - 1) = 2 ^ e / 2 := by
        rw [zpow_sub₀ (two_ne_zero : (2 : ℚ) ≠ 0), zpow_one]
      linarith
    have habs_t : |x / 2 ^ e * 2 ^ (16 : ℤ)| = |x / 2 ^ e| * 2 ^ (16 : ℤ) := by
      rw [abs_mul, abs_of_pos (zpow_pos (by norm_num : (0 : ℚ) < 2) (16 : ℤ))]
    have ht_low : (2 : ℚ) ^ (15 : ℤ) ≤ |x / 2 ^ e * 2 ^ (16 : ℤ)| := by
      rw [habs_t]
      have : (2 : ℚ) ^ (15 : ℤ) = 1 / 2 * 2 ^ (16 : ℤ) := by
        rw [show (15 : ℤ) = 16 - 1 by ring, zpow_sub₀ (two_ne_zero : (2 : ℚ) ≠ 0), zpow_one]
        ring
      rw [this]
      exact mul_le_mul_of_nonneg_right hm_low (by positivity)
    have ht_up : |x / 2 ^ e * 2 ^ (16 : ℤ)| < 2 ^ (16 : ℤ) := by
      rw [habs_t]
      calc |x / 2 ^ e| * 2 ^ (16 : ℤ) < 1 * 2 ^ (16 : ℤ) :=
            mul_lt_mul_of_pos_right hm_up (zpow_pos (by norm_num) (16 : ℤ))
        _ = 2 ^ (16 : ℤ) := one_mul _
    have hdist := abs_nearbyintQ_sub_le (x / 2 ^ e * 2 ^ (16 : ℤ))
    rw [← hs] at hdist
    have hcast_s : |(s : ℚ)| = ((|s| : ℤ) : ℚ) := Int.cast_abs.symm
    have hs_lower : ((|s| : ℤ) : ℚ) ≥ 2 ^ (15 : ℤ) - 1 / 2 := by
      rw [← hcast_s]
      have h1 : |x / 2 ^ e * 2 ^ (16 : ℤ)| - |(s : ℚ)| ≤ 1 / 2 := by
        have := abs_sub_abs_le_abs_sub (x / 2 ^ e * 2 ^ (16 : ℤ)) (s : ℚ)
        have h2 : |x / 2 ^ e * 2 ^ (16 : ℤ) - (s : ℚ)| ≤ 1 / 2 := by
          rw [abs_sub_comm]
          exact hdist
        linarith
      linarith
    have hs_upper : ((|s| : ℤ) : ℚ) ≤ 2 ^ (16 : ℤ) + 1 / 2 := by
      rw [← hcast_s]
      have h1 : |(s : ℚ)| - |x / 2 ^ e * 2 ^ (16 : ℤ)| ≤ 1 / 2 := by
        have := abs_sub_abs_le_abs_sub (s : ℚ) (x / 2 ^ e * 2 ^ (16 : ℤ))
        linarith
      linarith
    have hs_low : (2 : ℤ) ^ 15 ≤ |s| := by
      have : ((2 : ℤ) ^ 15 : ℤ) - 1 < |s| := by
        have hlit : ((2 : ℚ) ^ (15 : ℤ) : ℚ) = ((2 ^ 15 : ℤ) : ℚ) := by norm_num
        have := hs_lower
        rw [hlit] at this
        exact_mod_cast (by linarith : ((2 ^ 15 : ℤ) : ℚ) - 1 < ((|s| : ℤ) : ℚ))
      omega
    have hs_up : |s| ≤ (2 : ℤ) ^ 16 := by
      have hlit : ((2 : ℚ) ^ (16 : ℤ) : ℚ) = ((2 ^ 16 : ℤ) : ℚ) := by norm_num
      have h1 : ((|s| : ℤ) : ℚ) < ((2 ^ 16 : ℤ) : ℚ) + 1 := by
        rw [← hlit]
        linarith
      have : |s| < 2 ^ 16 + 1 := by exact_mod_cast h1
      omega
    rcases lt_or_eq_of_le hs_up with hlt | heq
    · rw [hq]
      exact quantize_int_mul_zpow s (e - 16) hs_low hlt
    · rw [hq]
      exact quantize_int_mul_zpow_top s (e - 16) heq

/-! ## C6: force-flux potential at zero separation -/

/-- **C6** (the code's actual behavior at the claimed input): with
`constant_force = 1 > 0` and `reactive_distance = 1 > 0`, at `r = 0` the
denominator `b2 * r1 + r3` is exactly 0, so the scalar coefficient is
`1 / 0 = +∞` and each force component is `∞ * 0 = NaN`; the energy stays
non-NaN.  This holds for every conforming math library (`sqrt` exact at
0), refuting the claim that `evaluate_force` is finite and non-NaN at
`r = 0`. -/
theorem c6_force_flux_nan_at_zero (f : MathFns) :
    force_flux_potential.evaluate_force f ⟨FP.num 1, FP.num 1⟩
        ⟨FP.num 0, FP.num 0, FP.num 0⟩ = ⟨FP.nan, FP.nan, FP.nan⟩ ∧
    (force_flux_potential.evaluate_energy f ⟨FP.num 1, FP.num 1⟩
        ⟨FP.num 0, FP.num 0, FP.num 0⟩).isNaN = false := by
  have h0 : f.sqrt 0 = 0 := f.sqrt_zero
  constructor
  · norm_num [force_flux_potential.evaluate_force, FPVec.squared_norm, FP.sqrtF,
      HMul.hMul, Mul.mul, HAdd.hAdd, Add.add, HDiv.hDiv, Div.div,
      FP.mul, FP.add, FP.div, h0]
  · norm_num [force_flux_potential.evaluate_energy, FPVec.squared_norm, FP.sqrtF,
      FP.atan2F, FP.isNaN, HMul.hMul, Mul.mul, HAdd.hAdd, Add.add,
      FP.mul, FP.add, h0]

/-! ## Real-vector lemmas (for C1 and C4) -/

theorem Vec.zero_def : (0 : Vec) = ⟨0, 0, 0⟩ := rfl

theorem Vec.add_def (a b : Vec) : a + b = ⟨a.x + b.x, a.y + b.y, a.z + b.z⟩ := rfl

theorem Vec.sub_def (a b : Vec) : a - b = ⟨a.x - b.x, a.y - b.y, a.z - b.z⟩ := rfl

theorem Vec.smul_def (c : ℝ) (a : Vec) : c • a = ⟨c * a.x, c * a.y, c * a.z⟩ := rfl

theorem Vec.norm_zero : (0 : Vec).norm = 0 := by
  simp [Vec.norm, Vec.zero_def]

theorem Vec.norm_nonneg (v : Vec) : 0 ≤ v.norm :=
  Real.sqrt_nonneg _

theorem Vec.norm_smul (c : ℝ) (v : Vec) : (c • v).norm = |c| * v.norm := by
  rw [Vec.smul_def, Vec.norm, Vec.norm]
  have h : (c * v.x) ^ 2 + (c * v.y) ^ 2 + (c * v.z) ^ 2 =
      c ^ 2 * (v.x ^ 2 + v.y ^ 2 + v.z ^ 2) := by ring
  rw [h, Real.sqrt_mul (sq_nonneg c), Real.sqrt_sq_eq_abs]

theorem Vec.smul_eq_zero_iff {c : ℝ} {v : Vec} : c • v = 0 ↔ c = 0 ∨ v = 0 := by
  constructor
  · intro h
    by_cases hc : c = 0
    · exact Or.inl hc
    · refine Or.inr ?_
      have hx := congrArg Vec.x h
      have hy := congrArg Vec.y h
      have hz := congrArg Vec.z h
      simp only [Vec.smul_def, Vec.zero_def] at hx hy hz
      exact Vec.ext_fields (by rcases mul_eq_zero.mp hx with h' | h' <;> tauto)
        (by rcases mul_eq_zero.mp hy with h' | h' <;> tauto)
        (by rcases mul_eq_zero.mp hz with h' | h' <;> tauto)
  · rintro (rfl | rfl)
    · exact Vec.ext_fields (zero_mul _) (zero_mul _) (zero_mul _)
    · exact Vec.ext_fields (mul_zero _) (mul_zero _) (mul_zero _)

/-- **C4**: the semispring bond force is one-sided: zero at or below the
equilibrium distance; above it, magnitude `spring_constant × (distance −
equilibrium)` directed opposite to the separation vector (restoring). -/
theorem c4_semispring_one_sided (k d0 : ℝ) (hk : 0 < k) (hd0 : 0 ≤ d0) (r : Vec) :
    (r.norm ≤ d0 → semispring_potential.evaluate_force ⟨k, d0⟩ r = 0) ∧
    (d0 < r.norm →
      (semispring_potential.evaluate_force ⟨k, d0⟩ r).norm = k * (r.norm - d0) ∧
      ∃ c : ℝ, 0 < c ∧
        semispring_potential.evaluate_force ⟨k, d0⟩ r = (-c) • r) := by
  constructor
  · intro hle
    rw [semispring_potential.evaluate_force, if_pos hle]
  · intro hlt
    have hdpos : 0 < r.norm := lt_of_le_of_lt hd0 hlt
    have hcoef : 0 < k * (r.norm - d0) / r.norm :=
      div_pos (mul_pos hk (by linarith)) hdpos
    rw [semispring_potential.evaluate_force, if_neg (not_le.mpr hlt)]
    refine ⟨?_, k * (r.norm - d0) / r.norm, hcoef, rfl⟩
    rw [Vec.norm_smul, abs_neg, abs_of_pos hcoef, div_mul_cancel₀ _ (ne_of_gt hdpos)]

/-- Witness for C4 at `k = 2`, `d0 = 1`, `r = (3, 0, 0)`. -/
theorem c4_witness :
    (0 : ℝ) < 2 ∧ (0 : ℝ) ≤ 1 ∧
    (((⟨3, 0, 0⟩ : Vec).norm ≤ 1 →
        semispring_potential.evaluate_force ⟨2, 1⟩ ⟨3, 0, 0⟩ = 0) ∧
      (1 < (⟨3, 0, 0⟩ : Vec).norm →
        (semispring_potential.evaluate_force ⟨2, 1⟩ ⟨3, 0, 0⟩).norm =
          2 * ((⟨3, 0, 0⟩ : Vec).norm - 1) ∧
        ∃ c : ℝ, 0 < c ∧
          semispring_potential.evaluate_force ⟨2, 1⟩ ⟨3, 0, 0⟩ =
            (-c) • (⟨3, 0, 0⟩ : Vec))) :=
  ⟨by norm_num, by norm_num, c4_semispring_one_sided 2 1 (by norm_num) (by norm_num) _⟩

theorem getD_set_ne {α : Type} {l : List α} {i j : ℕ} (h : i ≠ j) (a d : α) :
    (l.set i a).getD j d = l.getD j d := by
  simp [List.getD_eq_getElem?_getD, List.getElem?_set_ne h]

theorem getD_set_self {α : Type} {l : List α} {i : ℕ} (h : i < l.length) (a d : α) :
    (l.set i a).getD i d = a := by
  simp [List.getD_eq_getElem?_getD, List.getElem?_set_self h]

/-! ## Kinetochore-fiber force-field lemmas (for C1) -/

theorem foldl_add_eq_sum {α : Type} (g : α → ℝ) (l : List α) (a : ℝ) :
    l.foldl (fun e s => e + g s) a = a + (l.map g).sum := by
  induction l generalizing a with
  | nil => simp
  | cons x xs ih =>
      simp only [List.foldl_cons, List.map_cons, List.sum_cons, ih]
      ring

theorem kfiber_foldl_length (pole : Vec) (positions : List Vec)
    (specs : List kinetochore_spec) (forces : List Vec) :
    (specs.foldl
        (fun fs spec =>
          fs.set spec.particle_index
            (fs.getD spec.particle_index 0 +
              (make_potential spec).evaluate_force
                (positions.getD spec.particle_index 0 - pole)))
        forces).length = forces.length := by
  induction specs generalizing forces with
  | nil => rfl
  | cons s ss ih =>
      rw [List.foldl_cons, ih, List.length_set]

theorem kfiber_foldl_frame (pole : Vec) (positions : List Vec)
    (specs : List kinetochore_spec) (forces : List Vec) (j : ℕ)
    (hj : j ∉ specs.map kinetochore_spec.particle_index) :
    (specs.foldl
        (fun fs spec =>
          fs.set spec.particle_index
            (fs.getD spec.particle_index 0 +
              (make_potential spec).evaluate_force
                (positions.getD spec.particle_index 0 - pole)))
        forces).getD j 0 = forces.getD j 0 := by
  induction specs generalizing forces with
  | nil => rfl
  | cons s ss ih =>
      rw [List.map_cons] at hj
      have hs : s.particle_index ≠ j := fun h => hj (h ▸ List.mem_cons_self _ _)
      have hss : j ∉ ss.map kinetochore_spec.particle_index :=
        fun h => hj (List.mem_cons_of_mem _ h)
      rw [List.foldl_cons, ih _ hss, getD_set_ne hs]

theorem kfiber_foldl_slot (pole : Vec) (positions : List Vec)
    (specs : List kinetochore_spec) (forces : List Vec) (spec : kinetochore_spec)
    (hmem : spec ∈ specs)
    (hnodup : (specs.map kinetochore_spec.particle_index).Nodup)
    (hlen : spec.particle_index < forces.length) :
    (specs.foldl
        (fun fs spec =>
          fs.set spec.particle_index
            (fs.getD spec.particle_index 0 +
              (make_potential spec).evaluate_force
                (positions.getD spec.particle_index 0 - pole)))
        forces).getD spec.particle_index 0 =
      forces.getD spec.particle_index 0 +
        (make_potential spec).evaluate_force
          (positions.getD spec.particle_index 0 - pole) := by
  induction specs generalizing forces with
  | nil => cases hmem
  | cons s ss ih =>
      rw [List.map_cons, List.nodup_cons] at hnodup
      rcases List.mem_cons.mp hmem with heq | htail
      · subst heq
        have hnot : spec.particle_index ∉ ss.map kinetochore_spec.particle_index :=
          hnodup.1
        rw [List.foldl_cons, kfiber_foldl_frame pole positions ss _ _ hnot,
          getD_set_self hlen]
      · have hne : s.particle_index ≠ spec.particle_index := by
          intro h
          exact hnodup.1 (h ▸ List.mem_map_of_mem kinetochore_spec.particle_index htail)
        rw [List.foldl_cons,
          ih _ htail hnodup.2 (by rw [List.length_set]; exact hlen),
          getD_set_ne hne]

/-- **C1** (as amended: the zero-force characterization additionally needs
a nonzero decay rate): for a registered kinetochore with mobility μ > 0
and decay rate k ≠ 0, `compute_energy` adds the harmonic spring energy
with spring constant k/μ and equilibrium distance L at the separation
`r = position − pole`; `compute_force` adds the corresponding restoring
force only to that kinetochore's force slot; and among nonzero
separations, the force vanishes exactly at distance L. -/
theorem c1_kinetochore_fiber (ff : kinetochore_fiber_forcefield)
    (positions forces : List Vec) (spec : kinetochore_spec)
    (hmem : spec ∈ ff.kinetochores)
    (hnodup : (ff.kinetochores.map kinetochore_spec.particle_index).Nodup)
    (hlen : spec.particle_index < forces.length)
    (hmob : 0 < spec.mobility) (hk : spec.decay_rate ≠ 0) :
    ff.compute_energy positions =
      (ff.kinetochores.map fun s =>
        s.decay_rate / s.mobility / 2 *
          ((positions.getD s.particle_index 0 - ff.pole_position).norm -
            s.stationary_length) ^ 2).sum ∧
    (ff.compute_force positions forces).getD spec.particle_index 0 =
      forces.getD spec.particle_index 0 +
        (make_potential spec).evaluate_force
          (positions.getD spec.particle_index 0 - ff.pole_position) ∧
    (∀ j : ℕ, j ∉ ff.kinetochores.map kinetochore_spec.particle_index →
      (ff.compute_force positions forces).getD j 0 = forces.getD j 0) ∧
    (∀ r : Vec, r.norm ≠ 0 →
      ((make_potential spec).evaluate_force r = 0 ↔
        r.norm = spec.stationary_length)) := by
  obtain ⟨pole, specs⟩ := ff
  refine ⟨?_, ?_, ?_, ?_⟩
  · show List.foldl _ 0 specs = _
    rw [foldl_add_eq_sum
      (fun s : kinetochore_spec =>
        (make_potential s).evaluate_energy (positions.getD s.particle_index 0 - pole))
      specs 0, zero_add]
    rfl
  · exact kfiber_foldl_slot pole positions specs forces spec hmem hnodup hlen
  · exact fun j hj => kfiber_foldl_frame pole positions specs forces j hj
  · intro r hr
    have hK : spec.decay_rate / spec.mobility ≠ 0 :=
      div_ne_zero hk (ne_of_gt hmob)
    rw [make_potential, spring_potential.evaluate_force]
    constructor
    · intro h
      rcases Vec.smul_eq_zero_iff.mp h with hc | hv
      · have hnum : spec.decay_rate / spec.mobility * (r.norm - spec.stationary_length) = 0 := by
          have := neg_eq_zero.mp hc
          exact (div_eq_zero_iff.mp this).resolve_right hr
        have := (mul_eq_zero.mp hnum).resolve_left hK
        linarith [this]
      · exact absurd (hv ▸ Vec.norm_zero) hr
    · intro h
      rw [h, sub_self, mul_zero, zero_div, neg_zero]
      exact Vec.smul_eq_zero_iff.mpr (Or.inl rfl)

/-- **C1 counterexample** to the claim as stated: a kinetochore with
mobility 1 > 0 but decay rate 0 and stationary length 2 exerts zero force
at separation distance 3 ≠ 2, so the unique zero-force separation of the
field is not L. -/
theorem c1_counterexample :
    (0 : ℝ) < 1 ∧
    (kinetochore_fiber_forcefield.compute_force ⟨0, [⟨0, 1, 0, 2⟩]⟩
        [⟨3, 0, 0⟩] [0]).getD 0 0 = 0 ∧
    ((⟨3, 0, 0⟩ : Vec) - (0 : Vec)).norm = 3 ∧ (3 : ℝ) ≠ 2 := by
  refine ⟨by norm_num, ?_, ?_, by norm_num⟩
  · show ([(0 : Vec)].set 0 _).getD 0 0 = 0
    rw [getD_set_self (by norm_num)]
    rw [make_potential, spring_potential.evaluate_force]
    norm_num
    rw [show (0 : ℝ) • ((⟨3, 0, 0⟩ : Vec) - 0) = 0 from
      Vec.smul_eq_zero_iff.mpr (Or.inl rfl)]
    simp [Vec.add_def, Vec.zero_def]
  · have hsub : (⟨3, 0, 0⟩ : Vec) - (0 : Vec) = ⟨3, 0, 0⟩ := by
      rw [Vec.sub_def, Vec.zero_def]
      norm_num
    rw [hsub, Vec.norm]
    rw [show (3 : ℝ) ^ 2 + 0 ^ 2 + 0 ^ 2 = 3 ^ 2 by norm_num]
    exact Real.sqrt_sq (by norm_num)

/-- Witness for C1: one kinetochore (index 0, mobility 1, decay rate 1,
stationary length 2), pole at the origin, particle at (2, 0, 0). -/
theorem c1_witness :
    ((⟨0, 1, 1, 2⟩ : kinetochore_spec) ∈
        (⟨0, [⟨0, 1, 1, 2⟩]⟩ : kinetochore_fiber_forcefield).kinetochores) ∧
    ((⟨0, [⟨0, 1, 1, 2⟩]⟩ : kinetochore_fiber_forcefield).kinetochores.map
        kinetochore_spec.particle_index).Nodup ∧
    (⟨0, 1, 1, 2⟩ : kinetochore_spec).particle_index < ([(0 : Vec)]).length ∧
    (0 : ℝ) < (⟨0, 1, 1, 2⟩ : kinetochore_spec).mobility ∧
    (⟨0, 1, 1, 2⟩ : kinetochore_spec).decay_rate ≠ 0 ∧
    ((⟨0, [⟨0, 1, 1, 2⟩]⟩ : kinetochore_fiber_forcefield).compute_energy
          [⟨2, 0, 0⟩] =
        ((⟨0, [⟨0, 1, 1, 2⟩]⟩ : kinetochore_fiber_forcefield).kinetochores.map
          fun s =>
            s.decay_rate / s.mobility / 2 *
              (([(⟨2, 0, 0⟩ : Vec)].getD s.particle_index 0 -
                  (⟨0, [⟨0, 1, 1, 2⟩]⟩ : kinetochore_fiber_forcefield).pole_position).norm -
                s.stationary_length) ^ 2).sum ∧
      ((⟨0, [⟨0, 1, 1, 2⟩]⟩ : kinetochore_fiber_forcefield).compute_force
            [⟨2, 0, 0⟩] [0]).getD
          (⟨0, 1, 1, 2⟩ : kinetochore_spec).particle_index 0 =
        ([(0 : Vec)]).getD (⟨0, 1, 1, 2⟩ : kinetochore_spec).particle_index 0 +
          (make_potential ⟨0, 1, 1, 2⟩).evaluate_force
            ([(⟨2, 0, 0⟩ : Vec)].getD
                (⟨0, 1, 1, 2⟩ : kinetochore_spec).particle_index 0 -
              (⟨0, [⟨0, 1, 1, 2⟩]⟩ : kinetochore_fiber_forcefield).pole_position) ∧
      (∀ j : ℕ,
        j ∉ (⟨0, [⟨0, 1, 1, 2⟩]⟩ : kinetochore_fiber_forcefield).kinetochores.map
            kinetochore_spec.particle_index →
        ((⟨0, [⟨0, 1, 1, 2⟩]⟩ : kinetochore_fiber_forcefield).compute_force
            [⟨2, 0, 0⟩] [0]).getD j 0 = ([(0 : Vec)]).getD j 0) ∧
      (∀ r : Vec, r.norm ≠ 0 →
        ((make_potential ⟨0, 1, 1, 2⟩).evaluate_force r = 0 ↔
          r.norm = (⟨0, 1, 1, 2⟩ : kinetochore_spec).stationary_length))) :=
  ⟨List.mem_singleton.mpr rfl, by simp, by norm_num, by norm_num, by norm_num,
    c1_kinetochore_fiber ⟨0, [⟨0, 1, 1, 2⟩]⟩ [⟨2, 0, 0⟩] [0] ⟨0, 1, 1, 2⟩
      (List.mem_singleton.mpr rfl) (by simp) (by norm_num) (by norm_num) (by norm_num)⟩

/-- **C5** (as amended): on a particle-count mismatch between the loaded
step-0 structure and the freshly built topology, the anatelophase driver
(when a stored structure exists) and the prometaphase driver raise the
error before any integration; the interphase relaxation driver performs no
size check — it copies the loaded structure unchecked and proceeds to
integrate. -/
theorem c5_initialization_size_checks {α β : Type} (init sys rods : List α)
    (integrate : List α → β) (hmis : init.length ≠ sys.length) :
    anatelophase_run_initialization (some init) sys rods =
      Except.error "initial structure size mismatch" ∧
    stage_run (anatelophase_run_initialization (some init) sys rods) integrate =
      Except.error "initial structure size mismatch" ∧
    prometaphase_run_initialization (some init) sys =
      Except.error "initial structure size mismatch" ∧
    (∀ sys' : List α, prometaphase_run_initialization none sys' =
      Except.error "no initial structure is given") ∧
    relaxation_run_initialization init sys = Except.ok (copy_into sys init) ∧
    stage_run (relaxation_run_initialization init sys) integrate =
      Except.ok (integrate (copy_into sys init)) := by
  refine ⟨?_, ?_, ?_, fun _ => rfl, rfl, rfl⟩
  · simp [anatelophase_run_initialization, hmis]
  · simp [stage_run, anatelophase_run_initialization, hmis, Except.map]
  · simp [prometaphase_run_initialization, hmis]

/-- **C5 counterexample** to the claim as stated: the relaxation driver
accepts a loaded structure of 1 particle into a 3-particle system without
raising any error (the claim says all three drivers raise one). -/
theorem c5_counterexample :
    relaxation_run_initialization [0] [5, 6, 7] = Except.ok [0, 6, 7] ∧
    [(0 : ℕ)].length ≠ [5, 6, 7].length := by
  constructor
  · rfl
  · decide

/-- Witness for C5 at a concrete mismatch (1 loaded particle, 2 built). -/
theorem c5_witness :
    [(0 : ℕ)].length ≠ [1, 2].length ∧
    (anatelophase_run_initialization (some [0]) [1, 2] [] =
        Except.error "initial structure size mismatch" ∧
      stage_run (anatelophase_run_initialization (some [0]) [1, 2] [])
          List.length =
        Except.error "initial structure size mismatch" ∧
      prometaphase_run_initialization (some [0]) [1, 2] =
        Except.error "initial structure size mismatch" ∧
      (∀ sys' : List ℕ, prometaphase_run_initialization none sys' =
        Except.error "no initial structure is given") ∧
      relaxation_run_initialization [0] [1, 2] =
        Except.ok (copy_into [1, 2] [0]) ∧
      stage_run (relaxation_run_initialization [0] [1, 2]) List.length =
        Except.ok (copy_into [1, 2] [0]).length) :=
  ⟨by decide, c5_initialization_size_checks [0] [1, 2] [] List.length (by decide)⟩

/-! ## Random-draw order in the anatelophase driver (C8) -/

/-- The random-rod set-up consumes exactly 6 normal draws per chain (3 for
the centroid, 3 for the rod direction) and nothing else. -/
theorem anatelophase_random_rods_cursor (nf : ℕ → ℕ → ℝ)
    (chains : List chain_range) (bond_length stddev : ℝ) (axis : Vec)
    (sys : List Vec) (r0 : RNGState) :
    (anatelophase_random_rods nf chains bond_length stddev axis sys r0).2 =
      ⟨r0.seed, r0.cursor + 6 * chains.length⟩ := by
  induction chains generalizing sys r0 with
  | nil =>
      show r0 = _
      cases r0
      simp
  | cons c cs ih =>
      unfold anatelophase_random_rods at ih ⊢
      rw [List.foldl_cons]
      rw [ih]
      simp only [normal_vector, drawNormal, List.length_cons]
      congr 1
      ring

/-- **C8**: with identical stored design (seed, chains), configuration and
stored initial structure, the run is a pure function of those inputs
(identical draws in identical order, hence identical initial positions,
integrator seeds and trajectories); the set-up draws come first (6 per
chain when rods are built, none when a structure is loaded), and only then
the per-stage integrator seeds, at consecutive positions of the seeded
stream. -/
theorem c8_rng_order_determinism
    (nf : ℕ → ℕ → ℝ) (uf : ℕ → ℕ → ℕ)
    (integrateA integrateT : List Vec → ℕ → List Vec)
    (chains : List chain_range) (bond_length stddev : ℝ) (axis : Vec)
    (seed : ℕ) (ip : List Vec)
    (hlen : ip.length = count_particles chains) :
    anatelophase_run nf uf integrateA integrateT chains bond_length stddev axis
        seed (some ip) =
      Except.ok
        ⟨copy_into (List.replicate (count_particles chains) 0) ip,
          uf seed 0,
          integrateA (copy_into (List.replicate (count_particles chains) 0) ip)
            (uf seed 0),
          uf seed 1,
          integrateT
            (integrateA (copy_into (List.replicate (count_particles chains) 0) ip)
              (uf seed 0))
            (uf seed 1)⟩ ∧
    (anatelophase_run nf uf integrateA integrateT chains bond_length stddev axis
        seed none =
      Except.ok
        ⟨(anatelophase_random_rods nf chains bond_length stddev axis
            (List.replicate (count_particles chains) 0) ⟨seed, 0⟩).1,
          uf seed (6 * chains.length),
          integrateA
            (anatelophase_random_rods nf chains bond_length stddev axis
              (List.replicate (count_particles chains) 0) ⟨seed, 0⟩).1
            (uf seed (6 * chains.length)),
          uf seed (6 * chains.length + 1),
          integrateT
            (integrateA
              (anatelophase_random_rods nf chains bond_length stddev axis
                (List.replicate (count_particles chains) 0) ⟨seed, 0⟩).1
              (uf seed (6 * chains.length)))
            (uf seed (6 * chains.length + 1))⟩) ∧
    (∀ stored₁ stored₂ : Option (List Vec), stored₁ = stored₂ →
      anatelophase_run nf uf integrateA integrateT chains bond_length stddev axis
          seed stored₁ =
        anatelophase_run nf uf integrateA integrateT chains bond_length stddev axis
          seed stored₂) := by
  refine ⟨?_, ?_, ?_⟩
  · simp [anatelophase_run, Except.map, drawInt, hlen]
  · simp [anatelophase_run, Except.map, drawInt, anatelophase_random_rods_cursor]
  · intro s1 s2 h
    rw [h]

/-- Witness for C8: a one-chain design with a stored two-particle
structure and trivial abstract draw/integration functions. -/
theorem c8_witness :
    ([(⟨0, 0, 0⟩ : Vec), ⟨0, 0, 0⟩] : List Vec).length =
      count_particles [⟨0, 2, 0⟩] ∧
    (anatelophase_run (fun _ _ => 0) (fun s i => s + i) (fun p _ => p)
        (fun p _ => p) [⟨0, 2, 0⟩] 1 1 ⟨0, 1, 0⟩ 7
        (some [⟨0, 0, 0⟩, ⟨0, 0, 0⟩]) =
      Except.ok
        ⟨copy_into (List.replicate (count_particles [⟨0, 2, 0⟩]) 0)
            [⟨0, 0, 0⟩, ⟨0, 0, 0⟩],
          7 + 0,
          copy_into (List.replicate (count_particles [⟨0, 2, 0⟩]) 0)
            [⟨0, 0, 0⟩, ⟨0, 0, 0⟩],
          7 + 1,
          copy_into (List.replicate (count_particles [⟨0, 2, 0⟩]) 0)
            [⟨0, 0, 0⟩, ⟨0, 0, 0⟩]⟩ ∧
      (anatelophase_run (fun _ _ => 0) (fun s i => s + i) (fun p _ => p)
          (fun p _ => p) [⟨0, 2, 0⟩] 1 1 ⟨0, 1, 0⟩ 7 none =
        Except.ok
          ⟨(anatelophase_random_rods (fun _ _ => 0) [⟨0, 2, 0⟩] 1 1 ⟨0, 1, 0⟩
              (List.replicate (count_particles [⟨0, 2, 0⟩]) 0) ⟨7, 0⟩).1,
            7 + 6 * [(⟨0, 2, 0⟩ : chain_range)].length,
            (anatelophase_random_rods (fun _ _ => 0) [⟨0, 2, 0⟩] 1 1 ⟨0, 1, 0⟩
              (List.replicate (count_particles [⟨0, 2, 0⟩]) 0) ⟨7, 0⟩).1,
            7 + (6 * [(⟨0, 2, 0⟩ : chain_range)].length + 1),
            (anatelophase_random_rods (fun _ _ => 0) [⟨0, 2, 0⟩] 1 1 ⟨0, 1, 0⟩
              (List.replicate (count_particles [⟨0, 2, 0⟩]) 0) ⟨7, 0⟩).1⟩) ∧
      (∀ stored₁ stored₂ : Option (List Vec), stored₁ = stored₂ →
        anatelophase_run (fun _ _ => 0) (fun s i => s + i) (fun p _ => p)
            (fun p _ => p) [⟨0, 2, 0⟩] 1 1 ⟨0, 1, 0⟩ 7 stored₁ =
          anatelophase_run (fun _ _ => 0) (fun s i => s + i) (fun p _ => p)
            (fun p _ => p) [⟨0, 2, 0⟩] 1 1 ⟨0, 1, 0⟩ 7 stored₂)) :=
  ⟨rfl,
    c8_rng_order_determinism (fun _ _ => 0) (fun s i => s + i) (fun p _ => p)
      (fun p _ => p) [⟨0, 2, 0⟩] 1 1 ⟨0, 1, 0⟩ 7 [⟨0, 0, 0⟩, ⟨0, 0, 0⟩] rfl⟩

/-! ## Prometaphase-transition lemmas (for C7) -/

theorem set2_fold_length {α : Type} (ts ss : ℕ) (v w : ℕ → α) (m : ℕ)
    (acc : List α) :
    ((List.range m).foldl
        (fun a k => (a.set (ts + k) (v k)).set (ss + k) (w k)) acc).length =
      acc.length := by
  induction m with
  | zero => rfl
  | succ m ih =>
      rw [List.range_succ, List.foldl_append, List.foldl_cons, List.foldl_nil,
        List.length_set, List.length_set, ih]

theorem set2_fold_frame {α : Type} (ts ss : ℕ) (v w : ℕ → α) (m : ℕ)
    (acc : List α) (j : ℕ) (d : α)
    (h1 : ∀ k < m, ts + k ≠ j) (h2 : ∀ k < m, ss + k ≠ j) :
    ((List.range m).foldl
        (fun a k => (a.set (ts + k) (v k)).set (ss + k) (w k)) acc).getD j d =
      acc.getD j d := by
  induction m with
  | zero => rfl
  | succ m ih =>
      rw [List.range_succ, List.foldl_append, List.foldl_cons, List.foldl_nil,
        getD_set_ne (h2 m (Nat.lt_succ_self m)),
        getD_set_ne (h1 m (Nat.lt_succ_self m))]
      exact ih (fun k hk => h1 k (Nat.lt_succ_of_lt hk))
        (fun k hk => h2 k (Nat.lt_succ_of_lt hk))

theorem set2_fold_value {α : Type} (ts ss : ℕ) (v w : ℕ → α) (m : ℕ)
    (acc : List α) (d : α)
    (hdisj : ∀ a < m, ∀ b < m, ts + a ≠ ss + b)
    (hts : ts + m ≤ acc.length) (hss : ss + m ≤ acc.length) :
    ∀ k < m,
      ((List.range m).foldl
          (fun a k => (a.set (ts + k) (v k)).set (ss + k) (w k)) acc).getD
          (ts + k) d = v k ∧
      ((List.range m).foldl
          (fun a k => (a.set (ts + k) (v k)).set (ss + k) (w k)) acc).getD
          (ss + k) d = w k := by
  induction m with
  | zero => omega
  | succ m ih =>
      intro k hk
      have hmidlen :
          ((List.range m).foldl
              (fun a k => (a.set (ts + k) (v k)).set (ss + k) (w k)) acc).length =
            acc.length := set2_fold_length ts ss v w m acc
      rw [List.range_succ, List.foldl_append, List.foldl_cons, List.foldl_nil]
      rcases Nat.lt_succ_iff_lt_or_eq.mp hk with hlt | rfl
      · constructor
        · rw [getD_set_ne (Ne.symm (hdisj k (by omega) m (by omega))),
            getD_set_ne (by omega : ts + m ≠ ts + k)]
          exact (ih (fun a ha b hb => hdisj a (by omega) b (by omega))
            (by omega) (by omega) k hlt).1
        · rw [getD_set_ne (by omega : ss + m ≠ ss + k),
            getD_set_ne (hdisj m (by omega) k (by omega))]
          exact (ih (fun a ha b hb => hdisj a (by omega) b (by omega))
            (by omega) (by omega) k hlt).2
      · constructor
        · rw [getD_set_ne (Ne.symm (hdisj k (by omega) k (by omega)))]
          exact getD_set_self (by omega) _ _
        · exact getD_set_self (by rw [List.length_set]; omega) _ _

theorem transition_chrom_step_length (cg : ℕ) (disp : Vec)
    (ichains pchains : List chain_range) (sisters : List (ℕ × ℕ))
    (ipos : List Vec) (acc : List Vec) (c : ℕ) :
    (transition_chrom_step cg disp ichains pchains sisters ipos acc c).length =
      acc.length :=
  set2_fold_length (tgt_chain pchains sisters c).start
    (sis_chain pchains sisters c).start
    (window_centroid cg ichains ipos c)
    (fun k => window_centroid cg ichains ipos c k + disp)
    ((tgt_chain pchains sisters c).stop - (tgt_chain pchains sisters c).start)
    acc

theorem transition_chrom_step_frame (cg : ℕ) (disp : Vec)
    (ichains pchains : List chain_range) (sisters : List (ℕ × ℕ))
    (ipos : List Vec) (acc : List Vec) (c : ℕ) (j : ℕ)
    (h1 : ∀ k < (tgt_chain pchains sisters c).stop -
        (tgt_chain pchains sisters c).start,
      (tgt_chain pchains sisters c).start + k ≠ j)
    (h2 : ∀ k < (tgt_chain pchains sisters c).stop -
        (tgt_chain pchains sisters c).start,
      (sis_chain pchains sisters c).start + k ≠ j) :
    (transition_chrom_step cg disp ichains pchains sisters ipos acc c).getD j 0 =
      acc.getD j 0 :=
  set2_fold_frame (tgt_chain pchains sisters c).start
    (sis_chain pchains sisters c).start
    (window_centroid cg ichains ipos c)
    (fun k => window_centroid cg ichains ipos c k + disp)
    ((tgt_chain pchains sisters c).stop - (tgt_chain pchains sisters c).start)
    acc j 0 h1 h2

theorem transition_chrom_step_value (cg : ℕ) (disp : Vec)
    (ichains pchains : List chain_range) (sisters : List (ℕ × ℕ))
    (ipos : List Vec) (acc : List Vec) (c : ℕ)
    (hdisj : ∀ a < (tgt_chain pchains sisters c).stop -
        (tgt_chain pchains sisters c).start,
      ∀ b < (tgt_chain pchains sisters c).stop -
        (tgt_chain pchains sisters c).start,
      (tgt_chain pchains sisters c).start + a ≠
        (sis_chain pchains sisters c).start + b)
    (hts : (tgt_chain pchains sisters c).start +
        ((tgt_chain pchains sisters c).stop -
          (tgt_chain pchains sisters c).start) ≤ acc.length)
    (hss : (sis_chain pchains sisters c).start +
        ((tgt_chain pchains sisters c).stop -
          (tgt_chain pchains sisters c).start) ≤ acc.length) :
    ∀ k < (tgt_chain pchains sisters c).stop -
        (tgt_chain pchains sisters c).start,
      (transition_chrom_step cg disp ichains pchains sisters ipos acc c).getD
          ((tgt_chain pchains sisters c).start + k) 0 =
        window_centroid cg ichains ipos c k ∧
      (transition_chrom_step cg disp ichains pchains sisters ipos acc c).getD
          ((sis_chain pchains sisters c).start + k) 0 =
        window_centroid cg ichains ipos c k + disp :=
  set2_fold_value (tgt_chain pchains sisters c).start
    (sis_chain pchains sisters c).start
    (window_centroid cg ichains ipos c)
    (fun k => window_centroid cg ichains ipos c k + disp)
    ((tgt_chain pchains sisters c).stop - (tgt_chain pchains sisters c).start)
    acc 0 hdisj hts hss

theorem transition_fold_length (cg : ℕ) (disp : Vec)
    (ichains pchains : List chain_range) (sisters : List (ℕ × ℕ))
    (ipos : List Vec) (l : List ℕ) (acc : List Vec) :
    (l.foldl (transition_chrom_step cg disp ichains pchains sisters ipos)
        acc).length = acc.length := by
  induction l generalizing acc with
  | nil => rfl
  | cons c cs ih =>
      rw [List.foldl_cons, ih, transition_chrom_step_length]

theorem transition_fold_frame (cg : ℕ) (disp : Vec)
    (ichains pchains : List chain_range) (sisters : List (ℕ × ℕ))
    (ipos : List Vec) (l : List ℕ) (acc : List Vec) (j : ℕ)
    (hout : ∀ c ∈ l,
      (∀ k < (tgt_chain pchains sisters c).stop -
          (tgt_chain pchains sisters c).start,
        (tgt_chain pchains sisters c).start + k ≠ j) ∧
      (∀ k < (tgt_chain pchains sisters c).stop -
          (tgt_chain pchains sisters c).start,
        (sis_chain pchains sisters c).start + k ≠ j)) :
    (l.foldl (transition_chrom_step cg disp ichains pchains sisters ipos)
        acc).getD j 0 = acc.getD j 0 := by
  induction l generalizing acc with
  | nil => rfl
  | cons c cs ih =>
      rw [List.foldl_cons,
        ih _ (fun c' hc' => hout c' (List.mem_cons_of_mem _ hc')),
        transition_chrom_step_frame cg disp ichains pchains sisters ipos acc c j
          (hout c (List.mem_cons_self _ _)).1 (hout c (List.mem_cons_self _ _)).2]

/-- **C7**: under the design invariants — positive coarse-graining factor,
each target chain of length ⌊source length / coarse_graining⌋, all target
and sister blocks inside the particle array and pairwise disjoint — the
transition writes, at every offset `k` of every chromosome `c`, the
centroid of the `coarse_graining` consecutive interphase positions
starting at `source.start + coarse_graining·k` (a window lying inside the
source chain) into the target bead, and that centroid plus the fixed
sister displacement `−sister_separation · normalize(spindle_axis)` into
the sister bead; the whole map is a pure function of its inputs. -/
theorem c7_transition_prometaphase_centroids (cg : ℕ) (ssep : ℝ) (axis : Vec)
    (ichains pchains : List chain_range) (sisters : List (ℕ × ℕ))
    (ipos : List Vec)
    (hcg : 0 < cg)
    (hclen : ∀ c < ichains.length,
      (tgt_chain pchains sisters c).stop - (tgt_chain pchains sisters c).start =
        ((src_chain ichains c).stop - (src_chain ichains c).start) / cg)
    (hbound : ∀ c < ichains.length,
      (tgt_chain pchains sisters c).start +
          ((tgt_chain pchains sisters c).stop -
            (tgt_chain pchains sisters c).start) ≤ count_particles pchains ∧
      (sis_chain pchains sisters c).start +
          ((tgt_chain pchains sisters c).stop -
            (tgt_chain pchains sisters c).start) ≤ count_particles pchains)
    (hts : ∀ c < ichains.length,
      blocks_apart (tgt_chain pchains sisters c).start
        ((tgt_chain pchains sisters c).stop - (tgt_chain pchains sisters c).start)
        (sis_chain pchains sisters c).start
        ((tgt_chain pchains sisters c).stop - (tgt_chain pchains sisters c).start))
    (hcross : ∀ c < ichains.length, ∀ c' < ichains.length, c ≠ c' →
      blocks_apart (tgt_chain pchains sisters c).start
        ((tgt_chain pchains sisters c).stop - (tgt_chain pchains sisters c).start)
        (tgt_chain pchains sisters c').start
        ((tgt_chain pchains sisters c').stop - (tgt_chain pchains sisters c').start) ∧
      blocks_apart (tgt_chain pchains sisters c).start
        ((tgt_chain pchains sisters c).stop - (tgt_chain pchains sisters c).start)
        (sis_chain pchains sisters c').start
        ((tgt_chain pchains sisters c').stop - (tgt_chain pchains sisters c').start) ∧
      blocks_apart (sis_chain pchains sisters c).start
        ((tgt_chain pchains sisters c).stop - (tgt_chain pchains sisters c).start)
        (tgt_chain pchains sisters c').start
        ((tgt_chain pchains sisters c').stop - (tgt_chain pchains sisters c').start) ∧
      blocks_apart (sis_chain pchains sisters c).start
        ((tgt_chain pchains sisters c).stop - (tgt_chain pchains sisters c).start)
        (sis_chain pchains sisters c').start
        ((tgt_chain pchains sisters c').stop -
          (tgt_chain pchains sisters c').start)) :
    ∀ c < ichains.length,
    ∀ k < (tgt_chain pchains sisters c).stop - (tgt_chain pchains sisters c).start,
      (src_chain ichains c).start + cg * k + cg ≤ (src_chain ichains c).stop ∧
      (transition_prometaphase cg ssep axis ichains pchains sisters ipos).getD
          ((tgt_chain pchains sisters c).start + k) 0 =
        compute_centroid
          (view_slice ipos ((src_chain ichains c).start + cg * k)
            ((src_chain ichains c).start + cg * k + cg)) ∧
      (transition_prometaphase cg ssep axis ichains pchains sisters ipos).getD
          ((sis_chain pchains sisters c).start + k) 0 =
        compute_centroid
          (view_slice ipos ((src_chain ichains c).start + cg * k)
            ((src_chain ichains c).start + cg * k + cg)) +
          (-ssep) • axis.normalize := by
  intro c hc k hk
  set N := ichains.length with hN
  set disp := (-ssep) • axis.normalize with hdisp
  set clen := (tgt_chain pchains sisters c).stop -
    (tgt_chain pchains sisters c).start with hclenc
  set slen := (src_chain ichains c).stop - (src_chain ichains c).start with hslen
  have hclen_c : clen = slen / cg := hclen c hc
  have hclen_pos : 0 < clen := Nat.pos_of_ne_zero (by omega)
  have hcgle : cg ≤ slen := by
    have : 1 ≤ slen / cg := by omega
    exact (Nat.one_le_div_iff hcg).mp this
  have hwin : cg * k + cg ≤ slen := by
    have hk1 : k + 1 ≤ clen := hk
    have := Nat.mul_le_mul_right cg hk1
    have hdm : (slen / cg) * cg ≤ slen := Nat.div_mul_le_self slen cg
    have : (k + 1) * cg ≤ slen := by
      calc (k + 1) * cg ≤ clen * cg := Nat.mul_le_mul_right cg hk1
        _ = (slen / cg) * cg := by rw [hclen_c]
        _ ≤ slen := hdm
    nlinarith [this]
  have hwindow_bound :
      (src_chain ichains c).start + cg * k + cg ≤ (src_chain ichains c).stop := by
    omega
  have hwc : window_centroid cg ichains ipos c k =
      compute_centroid
        (view_slice ipos ((src_chain ichains c).start + cg * k)
          ((src_chain ichains c).start + cg * k + cg)) := by
    rw [window_centroid, min_eq_left (by omega)]
  -- decompose the chromosome loop around chromosome c
  have hsplit : List.range N = List.range (c + 1) ++
      (List.range (N - (c + 1))).map (c + 1 + ·) := by
    rw [← List.range_add, show c + 1 + (N - (c + 1)) = N by omega]
  have hres : transition_prometaphase cg ssep axis ichains pchains sisters ipos =
      ((List.range (N - (c + 1))).map (c + 1 + ·)).foldl
        (transition_chrom_step cg disp ichains pchains sisters ipos)
        (transition_chrom_step cg disp ichains pchains sisters ipos
          ((List.range c).foldl
            (transition_chrom_step cg disp ichains pchains sisters ipos)
            (List.replicate (count_particles pchains) 0))
          c) := by
    show (List.range N).foldl _ _ = _
    rw [hsplit, List.foldl_append, List.range_succ, List.foldl_append,
      List.foldl_cons, List.foldl_nil]
  set pre := (List.range c).foldl
    (transition_chrom_step cg disp ichains pchains sisters ipos)
    (List.replicate (count_particles pchains) 0) with hpre
  have hprelen : pre.length = count_particles pchains := by
    rw [hpre, transition_fold_length, List.length_replicate]
  have hdisj_ts : ∀ a < clen, ∀ b < clen,
      (tgt_chain pchains sisters c).start + a ≠
        (sis_chain pchains sisters c).start + b := by
    have := hts c hc
    rw [blocks_apart] at this
    intro a ha b hb
    omega
  have hmid := transition_chrom_step_value cg disp ichains pchains sisters ipos
    pre c hdisj_ts
    (by rw [hprelen]; exact (hbound c hc).1)
    (by rw [hprelen]; exact (hbound c hc).2)
    k hk
  have hframe : ∀ c' ∈ (List.range (N - (c + 1))).map (c + 1 + ·),
      ((∀ k' < (tgt_chain pchains sisters c').stop -
          (tgt_chain pchains sisters c').start,
        (tgt_chain pchains sisters c').start + k' ≠
          (tgt_chain pchains sisters c).start + k) ∧
      (∀ k' < (tgt_chain pchains sisters c').stop -
          (tgt_chain pchains sisters c').start,
        (sis_chain pchains sisters c').start + k' ≠
          (tgt_chain pchains sisters c).start + k)) := by
    intro c' hc'
    rw [List.mem_map] at hc'
    obtain ⟨i, hi, rfl⟩ := hc'
    rw [List.mem_range] at hi
    have hcc' : c ≠ c + 1 + i := by omega
    have hlt : c + 1 + i < N := by omega
    obtain ⟨hA, hB, hC, hD⟩ := hcross c hc (c + 1 + i) hlt hcc'
    rw [blocks_apart] at hA hB hC hD
    constructor
    · intro k' hk'
      omega
    · intro k' hk'
      omega
  have hframe_s : ∀ c' ∈ (List.range (N - (c + 1))).map (c + 1 + ·),
      ((∀ k' < (tgt_chain pchains sisters c').stop -
          (tgt_chain pchains sisters c').start,
        (tgt_chain pchains sisters c').start + k' ≠
          (sis_chain pchains sisters c).start + k) ∧
      (∀ k' < (tgt_chain pchains sisters c').stop -
          (tgt_chain pchains sisters c').start,
        (sis_chain pchains sisters c').start + k' ≠
          (sis_chain pchains sisters c).start + k)) := by
    intro c' hc'
    rw [List.mem_map] at hc'
    obtain ⟨i, hi, rfl⟩ := hc'
    rw [List.mem_range] at hi
    have hcc' : c ≠ c + 1 + i := by omega
    have hlt : c + 1 + i < N := by omega
    obtain ⟨hA, hB, hC, hD⟩ := hcross c hc (c + 1 + i) hlt hcc'
    rw [blocks_apart] at hA hB hC hD
    constructor
    · intro k' hk'
      omega
    · intro k' hk'
      omega
  refine ⟨hwindow_bound, ?_, ?_⟩
  · rw [hres, transition_fold_frame cg disp ichains pchains sisters ipos _ _ _
      hframe, hmid.1, hwc]
  · rw [hres, transition_fold_frame cg disp ichains pchains sisters ipos _ _ _
      hframe_s, hmid.2, hwc]

/-- Witness for C7: one 4-bead interphase chromosome coarse-grained by 2
into a 2-bead target chain [0,2) and sister chain [2,4). -/
theorem c7_witness :
    0 < 2 ∧
    (∀ c < ([⟨0, 4, 0⟩] : List chain_range).length,
      (tgt_chain [⟨0, 2, 0⟩, ⟨2, 4, 0⟩] [(0, 1)] c).stop -
          (tgt_chain [⟨0, 2, 0⟩, ⟨2, 4, 0⟩] [(0, 1)] c).start =
        ((src_chain [⟨0, 4, 0⟩] c).stop - (src_chain [⟨0, 4, 0⟩] c).start) / 2) ∧
    (∀ c < ([⟨0, 4, 0⟩] : List chain_range).length,
      (tgt_chain [⟨0, 2, 0⟩, ⟨2, 4, 0⟩] [(0, 1)] c).start +
          ((tgt_chain [⟨0, 2, 0⟩, ⟨2, 4, 0⟩] [(0, 1)] c).stop -
            (tgt_chain [⟨0, 2, 0⟩, ⟨2, 4, 0⟩] [(0, 1)] c).start) ≤
        count_particles [⟨0, 2, 0⟩, ⟨2, 4, 0⟩] ∧
      (sis_chain [⟨0, 2, 0⟩, ⟨2, 4, 0⟩] [(0, 1)] c).start +
          ((tgt_chain [⟨0, 2, 0⟩, ⟨2, 4, 0⟩] [(0, 1)] c).stop -
            (tgt_chain [⟨0, 2, 0⟩, ⟨2, 4, 0⟩] [(0, 1)] c).start) ≤
        count_particles [⟨0, 2, 0⟩, ⟨2, 4, 0⟩]) ∧
    (∀ c < ([⟨0, 4, 0⟩] : List chain_range).length,
      blocks_apart (tgt_chain [⟨0, 2, 0⟩, ⟨2, 4, 0⟩] [(0, 1)] c).start
        ((tgt_chain [⟨0, 2, 0⟩, ⟨2, 4, 0⟩] [(0, 1)] c).stop -
          (tgt_chain [⟨0, 2, 0⟩, ⟨2, 4, 0⟩] [(0, 1)] c).start)
        (sis_chain [⟨0, 2, 0⟩, ⟨2, 4, 0⟩] [(0, 1)] c).start
        ((tgt_chain [⟨0, 2, 0⟩, ⟨2, 4, 0⟩] [(0, 1)] c).stop -
          (tgt_chain [⟨0, 2, 0⟩, ⟨2, 4, 0⟩] [(0, 1)] c).start)) ∧
    (∀ c < ([⟨0, 4, 0⟩] : List chain_range).length,
      ∀ c' < ([⟨0, 4, 0⟩] : List chain_range).length, c ≠ c' →
      blocks_apart (tgt_chain [⟨0, 2, 0⟩, ⟨2, 4, 0⟩] [(0, 1)] c).start
        ((tgt_chain [⟨0, 2, 0⟩, ⟨2, 4, 0⟩] [(0, 1)] c).stop -
          (tgt_chain [⟨0, 2, 0⟩, ⟨2, 4, 0⟩] [(0, 1)] c).start)
        (tgt_chain [⟨0, 2, 0⟩, ⟨2, 4, 0⟩] [(0, 1)] c').start
        ((tgt_chain [⟨0, 2, 0⟩, ⟨2, 4, 0⟩] [(0, 1)] c').stop -
          (tgt_chain [⟨0, 2, 0⟩, ⟨2, 4, 0⟩] [(0, 1)] c').start) ∧
      blocks_apart (tgt_chain [⟨0, 2, 0⟩, ⟨2, 4, 0⟩] [(0, 1)] c).start
        ((tgt_chain [⟨0, 2, 0⟩, ⟨2, 4, 0⟩] [(0, 1)] c).stop -
          (tgt_chain [⟨0, 2, 0⟩, ⟨2, 4, 0⟩] [(0, 1)] c).start)
        (sis_chain [⟨0, 2, 0⟩, ⟨2, 4, 0⟩] [(0, 1)] c').start
        ((tgt_chain [⟨0, 2, 0⟩, ⟨2, 4, 0⟩] [(0, 1)] c').stop -
          (tgt_chain [⟨0, 2, 0⟩, ⟨2, 4, 0⟩] [(0, 1)] c').start) ∧
      blocks_apart (sis_chain [⟨0, 2, 0⟩, ⟨2, 4, 0⟩] [(0, 1)] c).start
        ((tgt_chain [⟨0, 2, 0⟩, ⟨2, 4, 0⟩] [(0, 1)] c).stop -
          (tgt_chain [⟨0, 2, 0⟩, ⟨2, 4, 0⟩] [(0, 1)] c).start)
        (tgt_chain [⟨0, 2, 0⟩, ⟨2, 4, 0⟩] [(0, 1)] c').start
        ((tgt_chain [⟨0, 2, 0⟩, ⟨2, 4, 0⟩] [(0, 1)] c').stop -
          (tgt_chain [⟨0, 2, 0⟩, ⟨2, 4, 0⟩] [(0, 1)] c').start) ∧
      blocks_apart (sis_chain [⟨0, 2, 0⟩, ⟨2, 4, 0⟩] [(0, 1)] c).start
        ((tgt_chain [⟨0, 2, 0⟩, ⟨2, 4, 0⟩] [(0, 1)] c).stop -
          (tgt_chain [⟨0, 2, 0⟩, ⟨2, 4, 0⟩] [(0, 1)] c).start)
        (sis_chain [⟨0, 2, 0⟩, ⟨2, 4, 0⟩] [(0, 1)] c').start
        ((tgt_chain [⟨0, 2, 0⟩, ⟨2, 4, 0⟩] [(0, 1)] c').stop -
          (tgt_chain [⟨0, 2, 0⟩, ⟨2, 4, 0⟩] [(0, 1)] c').start)) ∧
    (∀ c < ([⟨0, 4, 0⟩] : List chain_range).length,
     ∀ k < (tgt_chain [⟨0, 2, 0⟩, ⟨2, 4, 0⟩] [(0, 1)] c).stop -
        (tgt_chain [⟨0, 2, 0⟩, ⟨2, 4, 0⟩] [(0, 1)] c).start,
      (src_chain [⟨0, 4, 0⟩] c).start + 2 * k + 2 ≤ (src_chain [⟨0, 4, 0⟩] c).stop ∧
      (transition_prometaphase 2 1 ⟨0, 1, 0⟩ [⟨0, 4, 0⟩] [⟨0, 2, 0⟩, ⟨2, 4, 0⟩]
          [(0, 1)] [⟨1, 0, 0⟩, ⟨3, 0, 0⟩, ⟨0, 1, 0⟩, ⟨0, 3, 0⟩]).getD
          ((tgt_chain [⟨0, 2, 0⟩, ⟨2, 4, 0⟩] [(0, 1)] c).start + k) 0 =
        compute_centroid
          (view_slice [⟨1, 0, 0⟩, ⟨3, 0, 0⟩, ⟨0, 1, 0⟩, ⟨0, 3, 0⟩]
            ((src_chain [⟨0, 4, 0⟩] c).start + 2 * k)
            ((src_chain [⟨0, 4, 0⟩] c).start + 2 * k + 2)) ∧
      (transition_prometaphase 2 1 ⟨0, 1, 0⟩ [⟨0, 4, 0⟩] [⟨0, 2, 0⟩, ⟨2, 4, 0⟩]
          [(0, 1)] [⟨1, 0, 0⟩, ⟨3, 0, 0⟩, ⟨0, 1, 0⟩, ⟨0, 3, 0⟩]).getD
          ((sis_chain [⟨0, 2, 0⟩, ⟨2, 4, 0⟩] [(0, 1)] c).start + k) 0 =
        compute_centroid
          (view_slice [⟨1, 0, 0⟩, ⟨3, 0, 0⟩, ⟨0, 1, 0⟩, ⟨0, 3, 0⟩]
            ((src_chain [⟨0, 4, 0⟩] c).start + 2 * k)
            ((src_chain [⟨0, 4, 0⟩] c).start + 2 * k + 2)) +
          (-(1 : ℝ)) • Vec.normalize ⟨0, 1, 0⟩) :=
  ⟨by decide, by decide, by decide, by decide, by decide,
    c7_transition_prometaphase_centroids 2 1 ⟨0, 1, 0⟩ [⟨0, 4, 0⟩]
      [⟨0, 2, 0⟩, ⟨2, 4, 0⟩] [(0, 1)]
      [⟨1, 0, 0⟩, ⟨3, 0, 0⟩, ⟨0, 1, 0⟩, ⟨0, 3, 0⟩]
      (by decide) (by decide) (by decide) (by decide) (by decide)⟩

/-! ## Interphase contact-distance schedule (C10) -/

theorem QPoint.sqdist_nonneg (a b : QPoint) : 0 ≤ a.sqdist b := by
  rw [QPoint.sqdist]
  positivity

theorem QPoint.sqdist_eq_zero_iff {a b : QPoint} : a.sqdist b = 0 ↔ a = b := by
  rw [QPoint.sqdist]
  constructor
  · intro h
    have hx : a.x = b.x := by nlinarith [sq_nonneg (a.x - b.x), sq_nonneg (a.y - b.y), sq_nonneg (a.z - b.z)]
    have hy : a.y = b.y := by nlinarith [sq_nonneg (a.x - b.x), sq_nonneg (a.y - b.y), sq_nonneg (a.z - b.z)]
    have hz : a.z = b.z := by nlinarith [sq_nonneg (a.x - b.x), sq_nonneg (a.y - b.y), sq_nonneg (a.z - b.z)]
    cases a
    cases b
    simp only at hx hy hz
    rw [hx, hy, hz]
  · intro h
    rw [h]
    ring

theorem closePairs_zero_of_distinct (pts : List QPoint)
    (hdist : ∀ i j : ℕ, i < j → j < pts.length →
      pts.getD i ⟨0, 0, 0⟩ ≠ pts.getD j ⟨0, 0, 0⟩) :
    closePairs 0 pts = [] := by
  rw [List.eq_nil_iff_forall_not_mem]
  rintro ⟨i, j⟩ hmem
  rw [mem_closePairs] at hmem
  obtain ⟨hij, hjlen, hsq⟩ := hmem
  have h0 : QPoint.sqdist (pts.getD i ⟨0, 0, 0⟩) (pts.getD j ⟨0, 0, 0⟩) = 0 :=
    le_antisymm (by simpa using hsq) (QPoint.sqdist_nonneg _ _)
  exact hdist i j hij hjlen (QPoint.sqdist_eq_zero_iff.mp h0)

theorem core_scale_fn_mono (cfg : interphase_schedule_config)
    (hinit1 : cfg.core_scale_init ≤ 1) (htau : 0 < cfg.core_scale_tau)
    {t1 t2 : ℝ} (h : t1 ≤ t2) :
    core_scale_fn cfg t1 ≤ core_scale_fn cfg t2 := by
  rw [core_scale_fn, core_scale_fn]
  have hdiv : t1 / cfg.core_scale_tau ≤ t2 / cfg.core_scale_tau := by gcongr
  have hexp : Real.exp (-(t2 / cfg.core_scale_tau)) ≤
      Real.exp (-(t1 / cfg.core_scale_tau)) :=
    Real.exp_le_exp.mpr (neg_le_neg hdiv)
  have hmul := mul_le_mul_of_nonneg_left hexp (sub_nonneg.mpr hinit1)
  linarith

theorem core_scale_fn_le_one (cfg : interphase_schedule_config)
    (hinit1 : cfg.core_scale_init ≤ 1) (t : ℝ) :
    core_scale_fn cfg t ≤ 1 := by
  rw [core_scale_fn]
  have hexp : 0 < Real.exp (-(t / cfg.core_scale_tau)) := Real.exp_pos _
  nlinarith

theorem contact_distance_at_succ (cfg : interphase_schedule_config) (s : ℕ) :
    contact_distance_at cfg (s + 1) =
      cfg.contactmap_distance * core_scale_fn cfg ((s : ℝ) * cfg.timestep) := by
  rw [contact_distance_at, interphase_state_before, interphase_callback,
    update_core_scale, core_scale_fn]

/-- **C10** (as amended): the contact-map update at callback step 0 uses
the map's default contact distance 0, and at distance 0 it records no
contacts among particles at pairwise-distinct positions (exactly
coincident particles would still be recorded — see the counterexample);
every later update at step s uses `contactmap_distance × core_scale(t)`
with `core_scale(t) = 1 − (1 − core_scale_init)·exp(−t/core_scale_tau)`
evaluated at the previous callback's time `t = (s−1)·timestep`; and for
`0 < core_scale_init ≤ 1` (with nonnegative timestep and configured
distance and positive core_scale_tau) the effective distance is
non-decreasing in s and never exceeds `contactmap_distance`. -/
theorem c10_contact_distance_schedule (cfg : interphase_schedule_config)
    (hinit0 : 0 < cfg.core_scale_init) (hinit1 : cfg.core_scale_init ≤ 1)
    (htau : 0 < cfg.core_scale_tau) (hdt : 0 ≤ cfg.timestep)
    (hcmd : 0 ≤ cfg.contactmap_distance) :
    contact_distance_at cfg 0 = 0 ∧
    (∀ (pts : List QPoint) (m : ContactState),
      (∀ i j : ℕ, i < j → j < pts.length →
        pts.getD i ⟨0, 0, 0⟩ ≠ pts.getD j ⟨0, 0, 0⟩) →
      contact_map.update 0 pts m = m) ∧
    (∀ s : ℕ, contact_distance_at cfg (s + 1) =
      cfg.contactmap_distance * core_scale_fn cfg ((s : ℝ) * cfg.timestep)) ∧
    (∀ s : ℕ, contact_distance_at cfg s ≤ contact_distance_at cfg (s + 1)) ∧
    (∀ s : ℕ, contact_distance_at cfg s ≤ cfg.contactmap_distance) := by
  refine ⟨rfl, ?_, contact_distance_at_succ cfg, ?_, ?_⟩
  · intro pts m hdist
    rw [contact_map.update, closePairs_zero_of_distinct pts hdist]
    rfl
  · intro s
    match s with
    | 0 =>
        rw [contact_distance_at_succ]
        show (0 : ℝ) ≤ _
        have h1 : core_scale_fn cfg ((0 : ℕ) * cfg.timestep) =
            core_scale_fn cfg 0 := by norm_num
        rw [h1, core_scale_fn]
        have hexp : Real.exp (-((0 : ℝ) / cfg.core_scale_tau)) = 1 := by
          norm_num
        rw [hexp]
        nlinarith
    | s + 1 =>
        rw [contact_distance_at_succ, contact_distance_at_succ]
        apply mul_le_mul_of_nonneg_left _ hcmd
        apply core_scale_fn_mono cfg hinit1 htau
        have : (s : ℝ) ≤ (s : ℝ) + 1 := by linarith
        calc (s : ℝ) * cfg.timestep ≤ ((s : ℝ) + 1) * cfg.timestep := by
              apply mul_le_mul_of_nonneg_right this hdt
          _ = ((s + 1 : ℕ) : ℝ) * cfg.timestep := by push_cast; ring
  · intro s
    match s with
    | 0 => exact hcmd
    | s + 1 =>
        rw [contact_distance_at_succ]
        calc cfg.contactmap_distance * core_scale_fn cfg ((s : ℝ) * cfg.timestep) ≤
              cfg.contactmap_distance * 1 :=
            mul_le_mul_of_nonneg_left (core_scale_fn_le_one cfg hinit1 _) hcmd
          _ = cfg.contactmap_distance := mul_one _

/-- **C10 counterexample** to the claim as stated: at contact distance 0,
two particles at exactly the same position are within distance 0, so the
step-0 update does record a contact. -/
theorem c10_counterexample :
    contact_map.update 0 [⟨0, 0, 0⟩, ⟨0, 0, 0⟩] [] = [(⟨0, 1⟩, 1)] ∧
    contact_map.count (contact_map.update 0 [⟨0, 0, 0⟩, ⟨0, 0, 0⟩] []) ⟨0, 1⟩ =
      1 := by
  have h : contact_map.update 0 [⟨0, 0, 0⟩, ⟨0, 0, 0⟩] [] = [(⟨0, 1⟩, 1)] := by
    norm_num [contact_map.update, contact_map.record, contact_map.castPair,
      contact_map.bump, closePairs, QPoint.sqdist, List.range_succ,
      List.filterMap_cons]
  exact ⟨h, by rw [h]; rfl⟩

/-- Witness for C10 at a concrete configuration (the documented defaults:
timestep 10⁻⁵, contact distance 0.24, core-scale init 1/2, tau 1/2). -/
theorem c10_witness :
    ((0 : ℝ) < (⟨1 / 100000, 24 / 100, 1 / 2, 1 / 2, 1 / 2, 1 / 2⟩ :
        interphase_schedule_config).core_scale_init) ∧
    ((⟨1 / 100000, 24 / 100, 1 / 2, 1 / 2, 1 / 2, 1 / 2⟩ :
        interphase_schedule_config).core_scale_init ≤ 1) ∧
    ((0 : ℝ) < (⟨1 / 100000, 24 / 100, 1 / 2, 1 / 2, 1 / 2, 1 / 2⟩ :
        interphase_schedule_config).core_scale_tau) ∧
    ((0 : ℝ) ≤ (⟨1 / 100000, 24 / 100, 1 / 2, 1 / 2, 1 / 2, 1 / 2⟩ :
        interphase_schedule_config).timestep) ∧
    ((0 : ℝ) ≤ (⟨1 / 100000, 24 / 100, 1 / 2, 1 / 2, 1 / 2, 1 / 2⟩ :
        interphase_schedule_config).contactmap_distance) ∧
    (contact_distance_at
        (⟨1 / 100000, 24 / 100, 1 / 2, 1 / 2, 1 / 2, 1 / 2⟩ :
          interphase_schedule_config) 0 = 0 ∧
      (∀ (pts : List QPoint) (m : ContactState),
        (∀ i j : ℕ, i < j → j < pts.length →
          pts.getD i ⟨0, 0, 0⟩ ≠ pts.getD j ⟨0, 0, 0⟩) →
        contact_map.update 0 pts m = m) ∧
      (∀ s : ℕ, contact_distance_at
          (⟨1 / 100000, 24 / 100, 1 / 2, 1 / 2, 1 / 2, 1 / 2⟩ :
            interphase_schedule_config) (s + 1) =
        (⟨1 / 100000, 24 / 100, 1 / 2, 1 / 2, 1 / 2, 1 / 2⟩ :
            interphase_schedule_config).contactmap_distance *
          core_scale_fn
            (⟨1 / 100000, 24 / 100, 1 / 2, 1 / 2, 1 / 2, 1 / 2⟩ :
              interphase_schedule_config)
            ((s : ℝ) *
              (⟨1 / 100000, 24 / 100, 1 / 2, 1 / 2, 1 / 2, 1 / 2⟩ :
                interphase_schedule_config).timestep)) ∧
      (∀ s : ℕ, contact_distance_at
          (⟨1 / 100000, 24 / 100, 1 / 2, 1 / 2, 1 / 2, 1 / 2⟩ :
            interphase_schedule_config) s ≤
        contact_distance_at
          (⟨1 / 100000, 24 / 100, 1 / 2, 1 / 2, 1 / 2, 1 / 2⟩ :
            interphase_schedule_config) (s + 1)) ∧
      (∀ s : ℕ, contact_distance_at
          (⟨1 / 100000, 24 / 100, 1 / 2, 1 / 2, 1 / 2, 1 / 2⟩ :
            interphase_schedule_config) s ≤
        (⟨1 / 100000, 24 / 100, 1 / 2, 1 / 2, 1 / 2, 1 / 2⟩ :
            interphase_schedule_config).contactmap_distance)) :=
  ⟨by norm_num, by norm_num, by norm_num, by norm_num, by norm_num,
    c10_contact_distance_schedule _ (by norm_num) (by norm_num) (by norm_num)
      (by norm_num) (by norm_num)⟩

/-! ## The C2 hypotheses are invariants of the contact-map operations -/

theorem contact_map.bump_counts_lt (m : ContactState) (p : contact_pair)
    (hrep : ∀ e ∈ m, e.2 < 2 ^ 32) :
    ∀ e ∈ contact_map.bump m p, e.2 < 2 ^ 32 := by
  induction m with
  | nil =>
      intro e he
      rw [contact_map.bump] at he
      rcases List.mem_singleton.mp he with rfl
      norm_num
  | cons a rest ih =>
      obtain ⟨r, c⟩ := a
      intro e he
      rw [contact_map.bump] at he
      split_ifs at he with hr
      · rcases List.mem_cons.mp he with rfl | htail
        · exact Nat.mod_lt _ (by norm_num)
        · exact hrep e (List.mem_cons_of_mem _ htail)
      · rcases List.mem_cons.mp he with rfl | htail
        · exact hrep (r, c) (List.mem_cons_self _ _)
        · exact ih (fun e' he' => hrep e' (List.mem_cons_of_mem _ he')) e htail

theorem contact_map.bump_keys_nodup (m : ContactState) (p : contact_pair)
    (h : (m.map Prod.fst).Nodup) :
    ((contact_map.bump m p).map Prod.fst).Nodup := by
  rw [contact_map.keys_bump]
  split_ifs with hmem
  · exact h
  · exact h.append (List.nodup_singleton p)
      (fun a ha hp => hmem ((List.mem_singleton.mp hp) ▸ ha))

theorem contact_map.bump_bounds (m : ContactState) (p : contact_pair)
    (hb : ∀ e ∈ m, e.1.i < 2 ^ 32 ∧ e.1.j < 2 ^ 32)
    (hp : p.i < 2 ^ 32 ∧ p.j < 2 ^ 32) :
    ∀ e ∈ contact_map.bump m p, e.1.i < 2 ^ 32 ∧ e.1.j < 2 ^ 32 := by
  induction m with
  | nil =>
      intro e he
      rcases List.mem_singleton.mp he with rfl
      exact hp
  | cons a rest ih =>
      obtain ⟨r, c⟩ := a
      intro e he
      rw [contact_map.bump] at he
      split_ifs at he with hr
      · rcases List.mem_cons.mp he with rfl | htail
        · exact hb (r, c) (List.mem_cons_self _ _)
        · exact hb e (List.mem_cons_of_mem _ htail)
      · rcases List.mem_cons.mp he with rfl | htail
        · exact hb (r, c) (List.mem_cons_self _ _)
        · exact ih (fun e' he' => hb e' (List.mem_cons_of_mem _ he')) e htail

/-- `update` (from any state satisfying them, in particular the empty
state after `clear`) preserves the container invariants: distinct stored
keys, 32-bit counts (representability) and 32-bit indices.  The first and
third are the key-side hypotheses of the C2 theorem; count positivity is
not listed because the wrap-around of the `std::uint32_t` counter can, in
principle, return a stored count to 0 after 2^32 increments. -/
theorem contact_map.update_invariants (d : ℚ) (points : List QPoint)
    (m : ContactState)
    (hkeys : (m.map Prod.fst).Nodup)
    (hrep : ∀ e ∈ m, e.2 < 2 ^ 32)
    (hb : ∀ e ∈ m, e.1.i < 2 ^ 32 ∧ e.1.j < 2 ^ 32) :
    ((contact_map.update d points m).map Prod.fst).Nodup ∧
    (∀ e ∈ contact_map.update d points m, e.2 < 2 ^ 32) ∧
    (∀ e ∈ contact_map.update d points m,
      e.1.i < 2 ^ 32 ∧ e.1.j < 2 ^ 32) := by
  rw [contact_map.update]
  induction closePairs d points generalizing m with
  | nil => exact ⟨hkeys, hrep, hb⟩
  | cons pr rest ih =>
      rw [List.foldl_cons]
      refine ih (contact_map.record m pr)
        (contact_map.bump_keys_nodup m _ hkeys)
        (contact_map.bump_counts_lt m _ hrep)
        (contact_map.bump_bounds m _ hb
          ⟨Nat.mod_lt _ (by norm_num), Nat.mod_lt _ (by norm_num)⟩)
